import Mathlib

/-!
Shallow embedding of the minerva simulation dashboard core.

Numbers are modelled as rationals; JS runtime values that may be a number,
a string or null/undefined are modelled by the `PVal` type, with NaN and the
infinities collapsed into `JsonNum.nonFinite` (the code only ever branches on
`Number.isFinite`).  JS `Map`/`Record` objects that are used exclusively
through key lookup are modelled as functions; the ones that are iterated are
modelled as association lists in insertion order.
-/

namespace Minerva

/-! ## JS value model -/

/-- A JS number: either a finite value (modelled as a rational) or one of
NaN and the two infinities, which the code only ever distinguishes through
`Number.isFinite`. -/
inductive JsonNum where
  | finite (q : ℚ)
  | nonFinite
deriving Repr, DecidableEq

/-- A loosely typed JS field value: number, string, or null/undefined
(the code folds undefined into null with `?? null` / `== null`). -/
inductive PVal where
  | num (x : JsonNum)
  | str (s : String)
  | null
deriving Repr, DecidableEq

/-- `Math.round`: round half toward positive infinity. -/
def jsRound (q : ℚ) : ℤ := ⌊q + 1/2⌋

/-! ## Decimal rendering (JS template interpolation of numbers) -/

/-- The decimal digit character for a value below ten. -/
def digitChar (d : ℕ) : Char := Char.ofNat (48 + d)

/-- Decimal rendering of a natural number, as JS string interpolation
produces for a non-negative integer. -/
def natToString (n : ℕ) : String :=
  if n = 0 then "0" else ⟨((Nat.digits 10 n).map digitChar).reverse⟩

/-- Decimal rendering of an integer. -/
def intToString (n : ℤ) : String :=
  if n < 0 then "-" ++ natToString n.natAbs else natToString n.natAbs

/-- First `fuel` decimal digits of a rational in `[0, 1)`, dropping a zero
tail, used to render the fractional part of a finite JS number. -/
def fracDigitsAux : ℕ → ℚ → List Char
  | 0, _ => []
  | fuel + 1, q =>
      if q = 0 then []
      else
        let d := (⌊q * 10⌋).toNat
        digitChar d :: fracDigitsAux fuel (q * 10 - d)

/-- JS `String(x)` for a finite number, faithful on every rational whose
decimal expansion fits in seventeen fractional digits (all values the
code ever formats are integers). -/
def jsNumToString (q : ℚ) : String :=
  let sign := if q < 0 then "-" else ""
  let a := |q|
  let ip := (⌊a⌋).toNat
  let frac := a - (⌊a⌋ : ℚ)
  if frac = 0 then sign ++ natToString ip
  else sign ++ natToString ip ++ "." ++ ⟨fracDigitsAux 17 frac⟩

/-! ## Character-list string helpers -/

/-- Whether `l` starts with `p` (character lists). -/
def startsWithCh : List Char → List Char → Bool
  | _, [] => true
  | [], _ :: _ => false
  | a :: as, b :: bs => a = b && startsWithCh as bs

/-- Whether `l` contains `sub` as a contiguous run (JS `String.includes`). -/
def containsSub : List Char → List Char → Bool
  | l, sub =>
    if startsWithCh l sub then true
    else
      match l with
      | [] => false
      | _ :: rest => containsSub rest sub

/-- JS whitespace for the purposes of `trim` and the `\s` class. -/
def isJsSpace (c : Char) : Bool :=
  c = ' ' || c = '\t' || c = '\n' || c = '\r'

/-- Strip a trailing dash-and-digits suffix (the regex `-\d+$` replaced by
the empty string), working on the character list of the lowercased name. -/
def stripNumSuffix (s : String) : String :=
  let rev := s.data.reverse
  let ds := rev.takeWhile Char.isDigit
  match ds, rev.drop ds.length with
  | _ :: _, '-' :: rest => ⟨rest.reverse⟩
  | _, _ => s

/-- Normalisation used by the fuzzy fallback: lowercase and delete
separators, whitespace and digits (the regex `/[-_\s\d]+/` with empty
replacement applied to the lowercased string). -/
def normalizeName (s : String) : List Char :=
  s.toLower.data.filter fun c =>
    !(c = '-' || c = '_' || isJsSpace c || c.isDigit)

/-! ## JS numeric string parsing -/

/-- Digit value of a decimal digit character. -/
def digitVal (c : Char) : ℕ := c.toNat - 48

/-- Value of a list of decimal digit characters (most significant first). -/
def digitsVal (l : List Char) : ℕ :=
  l.foldl (fun acc c => acc * 10 + digitVal c) 0

/-- JS `Number.parseInt(s, 10)`: skip leading whitespace, read an optional
sign and then leading decimal digits, ignoring any trailing junk; `none`
models the NaN result used by the code via `Number.isFinite`. -/
def parseIntJs (s : String) : Option ℤ :=
  let chars := s.data.dropWhile isJsSpace
  let (sign, rest) : ℤ × List Char :=
    match chars with
    | '-' :: r => (-1, r)
    | '+' :: r => (1, r)
    | r => (1, r)
  let digs := rest.takeWhile Char.isDigit
  match digs with
  | [] => none
  | _ => some (sign * digitsVal digs)

/-- JS `Number.parseFloat`: optional sign, then either digits with an
optional fraction or a bare fraction, with an optional decimal exponent;
`Infinity` parses to a non-finite value, and anything else is NaN. -/
def parseFloatJs (s : String) : JsonNum :=
  let chars := s.data.dropWhile isJsSpace
  let (sign, rest) : ℚ × List Char :=
    match chars with
    | '-' :: r => (-1, r)
    | '+' :: r => (1, r)
    | r => (1, r)
  if startsWithCh rest "Infinity".data then JsonNum.nonFinite
  else
    let intDigs := rest.takeWhile Char.isDigit
    let afterInt := rest.drop intDigs.length
    let (fracDigs, afterFrac) : List Char × List Char :=
      match afterInt with
      | '.' :: r => (r.takeWhile Char.isDigit, (r.dropWhile Char.isDigit))
      | _ => ([], afterInt)
    if intDigs = [] ∧ fracDigs = [] then JsonNum.nonFinite
    else
      let mantissa : ℚ :=
        (digitsVal intDigs : ℚ) +
          (digitsVal fracDigs : ℚ) / ((10 : ℚ) ^ fracDigs.length)
      let expVal : ℤ :=
        match afterFrac with
        | 'e' :: r | 'E' :: r =>
            let (esign, er) : ℤ × List Char :=
              match r with
              | '-' :: r2 => (-1, r2)
              | '+' :: r2 => (1, r2)
              | r2 => (1, r2)
            match er.takeWhile Char.isDigit with
            | [] => 0
            | eds => esign * digitsVal eds
        | _ => 0
      JsonNum.finite (sign * mantissa * (10 : ℚ) ^ expVal)

/-! ## Machine step registry (simulation-data.ts) -/

/-- The `\w` class restricted to what survives the earlier replacements. -/
def isWordChar (c : Char) : Bool := c.isAlphanum || c = '_'

/-- Worker for `collapseRuns`; the flag records whether the previous
character was part of a run being replaced. -/
def collapseRunsGo (p : Char → Bool) (repl : Char) :
    Bool → List Char → List Char
  | _, [] => []
  | inRun, c :: rest =>
      if p c then
        if inRun then collapseRunsGo p repl true rest
        else repl :: collapseRunsGo p repl true rest
      else c :: collapseRunsGo p repl false rest

/-- Replace every maximal run of characters satisfying `p` by `repl`
(the shape of `replace(/X+/g, " ")`). -/
def collapseRuns (p : Char → Bool) (repl : Char) (l : List Char) :
    List Char :=
  collapseRunsGo p repl false l

/-- Uppercase each word-initial character (`replace(/\b\w/g, upper)`);
the flag records whether the previous character was a word character. -/
def capWordStarts : Bool → List Char → List Char
  | _, [] => []
  | prevWord, c :: rest =>
      (if isWordChar c && !prevWord then c.toUpper else c) ::
        capWordStarts (isWordChar c) rest

/-- `toTitleCase` from simulation-data.ts: dashes and underscores become
spaces, whitespace runs collapse, the result is trimmed and each word is
capitalised. -/
def toTitleCase (text : String) : String :=
  let replaced : String :=
    ⟨collapseRuns isJsSpace ' '
      (collapseRuns (fun c => c = '-' || c = '_') ' ' text.data)⟩
  ⟨capWordStarts false replaced.trim.data⟩

/-- A catalog entry of models.json after normalisation (`RawModel`). -/
structure RawModel where
  id : String
  src : String
  position : Option (ℚ × ℚ × ℚ)
  rotation : Option (ℚ × ℚ × ℚ)
  scale : Option ℚ
deriving Repr, DecidableEq

/-- A simulatable machine step (`SimulationStep` in simulation-data.ts). -/
structure SimulationStep where
  id : String
  baseId : String
  name : String
  modelSrc : String
  duration : ℚ
  position : Option (ℚ × ℚ × ℚ)
  rotation : Option (ℚ × ℚ × ℚ)
  scale : Option ℚ
  occurrence : ℕ
deriving Repr, DecidableEq

/-- The fold body of `simulationSteps`: `usage` models the `idUsage` map
(accessed only through get/set, hence a function) and `index` the map
index. -/
def buildStepsGo (usage : String → ℕ) (index : ℕ) :
    List RawModel → List SimulationStep
  | [] => []
  | model :: rest =>
      let occurrence := usage model.id + 1
      let stepId :=
        if occurrence = 1 then model.id
        else model.id ++ "-" ++ natToString occurrence
      let baseName :=
        if model.id ≠ "" then toTitleCase model.id
        else "Step " ++ natToString (index + 1)
      let displayName :=
        if occurrence = 1 then baseName
        else baseName ++ " " ++ natToString occurrence
      let baseDuration : ℚ := 12
      let durationVariant : ℚ := ((index % 4 : ℕ) : ℚ) * 4
      { id := stepId, baseId := model.id, name := displayName,
        modelSrc := model.src, duration := baseDuration + durationVariant,
        position := model.position, rotation := model.rotation,
        scale := model.scale, occurrence := occurrence } ::
        buildStepsGo (fun k => if k = model.id then occurrence else usage k)
          (index + 1) rest

/-- `simulationSteps` as a function of the catalog: ids are the base id for
a first occurrence and `base-N` for the N-th. -/
def buildSteps (catalog : List RawModel) : List SimulationStep :=
  buildStepsGo (fun _ => 0) 0 catalog

/-- `machineRegistry`: the record keyed by step id (later entries win),
modelled as a lookup function since it is only read by key. -/
def machineRegistry (steps : List SimulationStep) :
    String → Option SimulationStep :=
  steps.foldl
    (fun acc step => fun key => if key = step.id then some step else acc key)
    (fun _ => none)

/-- `baseMachineRegistry`: the record keyed by base id collecting the steps
of each base machine in order. -/
def baseMachineRegistry (steps : List SimulationStep) :
    String → List SimulationStep :=
  steps.foldl
    (fun acc step => fun key =>
      if key = step.baseId then acc step.baseId ++ [step] else acc key)
    (fun _ => [])

/-- `cloneStep`: shallow copy with the provided name/duration overrides
(the only overrides the code ever passes). -/
def cloneStep (step : SimulationStep) (name : Option String)
    (duration : Option ℚ) : SimulationStep :=
  { step with name := name.getD step.name,
              duration := duration.getD step.duration }

/-! ## Flow resolver -/

/-- One entry of a declarative product flow. -/
structure FlowMachineStepDefinition where
  machineId : String
  name : Option String
  duration : Option ℚ
deriving Repr, DecidableEq

/-- A declarative production recipe (`ProductFlowDefinition`); the
`defaultConfig` map only prefills the configuration form and is never read
by the engine, so it is not carried here. -/
structure ProductFlowDefinition where
  productId : String
  productName : String
  description : Option String
  flow : List FlowMachineStepDefinition
deriving Repr, DecidableEq

/-- `resolveMachineStep`: exact step id first, then the first occurrence
registered under the base machine id, else none. -/
def resolveMachineStep (mReg : String → Option SimulationStep)
    (bReg : String → List SimulationStep) (machineId : String) :
    Option SimulationStep :=
  match mReg machineId with
  | some direct => some (cloneStep direct none none)
  | none =>
      match bReg machineId with
      | c :: _ => some (cloneStep c none none)
      | [] => none

/-- `deriveStepsFromFlow`: resolve every flow entry, apply the entry
overrides to a clone of the registry step, and drop (with a warning)
entries that do not resolve. -/
def deriveStepsFromFlow (mReg : String → Option SimulationStep)
    (bReg : String → List SimulationStep)
    (flowDefinition : ProductFlowDefinition) : List SimulationStep :=
  flowDefinition.flow.filterMap fun stepDef =>
    match resolveMachineStep mReg bReg stepDef.machineId with
    | none => none
    | some base =>
        some (cloneStep base (some (stepDef.name.getD base.name))
          (some (stepDef.duration.getD base.duration)))

/-! ## Simulation state engine -/

inductive SimulationVariant where
  | sequence
  | realtime
deriving Repr, DecidableEq

structure GeneralFormValues where
  lot : Option String
  derivative : Option String
  diameter : Option String
  moltenState : Option String
  materialMix : Option String
  series : Option String
deriving Repr, DecidableEq

structure ParameterFormValues where
  temperature : Option String
  altitude : Option String
  castingSpeed : Option String
  argonPressure : Option String
  waterPump : Option String
deriving Repr, DecidableEq

structure SimulationConfiguratorFormValues where
  general : GeneralFormValues
  parameters : ParameterFormValues
deriving Repr, DecidableEq

inductive ProductDataStatus where
  | process
  | finish
deriving Repr, DecidableEq

/-- An entry of an averages record after the `ensureAverages` filter:
only finite numbers and strings survive. -/
inductive AVal where
  | num (q : ℚ)
  | str (s : String)
deriving Repr, DecidableEq

/-- `RealtimeResult`: the run summary surfaced when a run finishes. -/
structure RealtimeResult where
  lot : String
  status : ProductDataStatus
  averages : List (String × AVal)
  operationHour : Option String
  goodProduct : Option ℤ
  defectProduct : Option ℤ
  conclusion : String
  updatedAt : Option String
deriving Repr, DecidableEq

/-- `ProductDataEntry`: one record of the current-production-record
collaborator, with undefined folded into the null/none cases. -/
structure ProductDataEntry where
  lot : Option String
  status : Option String
  activeMachineId : Option String
  averages : Option (List (String × PVal))
  operationHour : PVal
  goodProduct : PVal
  defectProduct : PVal
  conclusion : Option String
  updatedAt : Option String
deriving Repr, DecidableEq

/-- The engine's live state.  The three interval refs are modelled as
booleans recording whether the corresponding `setInterval` handle is
registered. -/
structure EngineState where
  isSimulationMode : Bool
  simulationVariant : SimulationVariant
  currentSteps : List SimulationStep
  activeMachineId : Option String
  elapsedSeconds : ℚ
  stepProgress : ℚ
  productFlows : List ProductFlowDefinition
  flowsLoading : Bool
  selectedProductId : Option String
  selectedProduct : Option ProductFlowDefinition
  lastConfiguration : Option SimulationConfiguratorFormValues
  isConfiguratorOpen : Bool
  realtimeResult : Option RealtimeResult
  startTime : Option ℚ
  sequenceInterval : Bool
  realtimeInterval : Bool
  elapsedInterval : Bool
deriving Repr, DecidableEq

/-- Sum of the step durations (`totalDuration`). -/
def totalDuration (steps : List SimulationStep) : ℚ :=
  steps.foldl (fun acc item => acc + item.duration) 0

/-- JS `%`: remainder with truncated quotient (sign of the dividend). -/
def jsMod (a b : ℚ) : ℚ :=
  a - b * (if 0 ≤ a / b then ((⌊a / b⌋ : ℤ) : ℚ) else ((⌈a / b⌉ : ℤ) : ℚ))

/-- The three state cells written by `computeState`. -/
structure ComputeOut where
  activeMachineId : Option String
  stepProgress : ℚ
  elapsedSeconds : ℚ
deriving Repr, DecidableEq

/-- The `for (const step of currentSteps)` walk of `computeState`:
`accumulated` and `current` carry the loop variables. -/
def walkSteps (cycle elapsed : ℚ) (accumulated : ℚ)
    (current : SimulationStep) : List SimulationStep → ComputeOut
  | [] => ⟨some current.id, 1, elapsed⟩
  | step :: rest =>
      let acc2 := accumulated + step.duration
      if cycle < acc2 then
        ⟨some step.id, (cycle - (acc2 - step.duration)) / step.duration,
          elapsed⟩
      else walkSteps cycle elapsed acc2 step rest

/-- `computeState` of the scripted scheduler. -/
def computeState (steps : List SimulationStep) (elapsed : ℚ) : ComputeOut :=
  if totalDuration steps ≤ 0 ∨ steps = [] then ⟨none, 0, 0⟩
  else
    match steps with
    | [] => ⟨none, 0, 0⟩
    | first :: _ =>
        let cycle := jsMod elapsed (totalDuration steps)
        walkSteps cycle elapsed 0 first steps

/-- Write the `computeState` outputs into the engine state. -/
def applyCompute (s : EngineState) (elapsed : ℚ) : EngineState :=
  let c := computeState s.currentSteps elapsed
  { s with activeMachineId := c.activeMachineId,
           stepProgress := c.stepProgress,
           elapsedSeconds := c.elapsedSeconds }

/-- `clearTimers`: clear all three interval handles. -/
def clearTimers (s : EngineState) : EngineState :=
  { s with sequenceInterval := false, realtimeInterval := false,
           elapsedInterval := false }

/-- `startSimulation`: clear the previous result, record the start
reference time, enter simulation mode. -/
def startSimulation (s : EngineState) (now : ℚ) : EngineState :=
  { s with realtimeResult := none, startTime := some now,
           isSimulationMode := true }

/-- `stopSimulation(preserveRealtimeResult)`. -/
def stopSimulation (s : EngineState) (preserveRealtimeResult : Bool) :
    EngineState :=
  let s2 := clearTimers s
  { s2 with isSimulationMode := false, startTime := none,
            activeMachineId := none, stepProgress := 0, elapsedSeconds := 0,
            isConfiguratorOpen := false,
            realtimeResult :=
              if preserveRealtimeResult then s2.realtimeResult else none }

/-- The mode-entry part of the simulation effect: when `isSimulationMode`
becomes true the effect clears the live cells, re-records the start time
and registers the interval set of the active variant. -/
def engineEffectStart (s : EngineState) (now : ℚ) : EngineState :=
  { s with activeMachineId := none, stepProgress := 0, elapsedSeconds := 0,
           startTime := some now,
           sequenceInterval := s.simulationVariant = SimulationVariant.sequence,
           realtimeInterval := s.simulationVariant = SimulationVariant.realtime,
           elapsedInterval := s.simulationVariant = SimulationVariant.realtime }

/-- `applyProductFlow`: look up the product, derive its steps, and abort
(with a console warning, state untouched) when the product is unknown or
the derived sequence is empty; otherwise load the steps and start. -/
def applyProductFlow (mReg : String → Option SimulationStep)
    (bReg : String → List SimulationStep) (s : EngineState)
    (productId : String) (formValues : SimulationConfiguratorFormValues)
    (now : ℚ) : EngineState :=
  match s.productFlows.find? (fun item => item.productId == productId) with
  | none => s
  | some flowDefinition =>
      let derivedSteps := deriveStepsFromFlow mReg bReg flowDefinition
      if derivedSteps = [] then s
      else
        startSimulation
          { s with currentSteps := derivedSteps,
                   selectedProductId := some flowDefinition.productId,
                   selectedProduct := some flowDefinition,
                   lastConfiguration := some formValues,
                   isConfiguratorOpen := false,
                   activeMachineId := none, stepProgress := 0,
                   elapsedSeconds := 0 } now

/-- `requestSimulationStart`: the entry point of the start button;
`defaultSteps` stands for the registry-derived `simulationSteps`. -/
def requestSimulationStart (defaultSteps : List SimulationStep)
    (s : EngineState) (now : ℚ) : EngineState :=
  let effectiveVariant :=
    if s.isSimulationMode then s.simulationVariant
    else SimulationVariant.sequence
  let s2 :=
    if ¬s.isSimulationMode ∧ s.simulationVariant = SimulationVariant.realtime
    then { s with simulationVariant := SimulationVariant.sequence } else s
  if effectiveVariant = SimulationVariant.sequence then
    if s2.flowsLoading then s2
    else if s2.productFlows = [] then
      startSimulation
        { s2 with currentSteps := defaultSteps, selectedProductId := none,
                  selectedProduct := none, lastConfiguration := none } now
    else { s2 with isConfiguratorOpen := true }
  else startSimulation s2 now

/-! ## Realtime polling -/

/-- `sanitizeLot`. -/
def sanitizeLot : Option String → String
  | some v => v.trim.toLower
  | none => ""

/-- `parseOperationHour`. -/
def parseOperationHour : PVal → Option String
  | PVal.null => none
  | PVal.num (JsonNum.finite q) =>
      some (jsNumToString q ++ " " ++ (if q = 1 then "hour" else "hours"))
  | PVal.num JsonNum.nonFinite => none
  | PVal.str s => if s.trim.length > 0 then some s.trim else none

/-- `parseCount` for the good/defect product counters. -/
def parseCount : PVal → Option ℤ
  | PVal.null => none
  | PVal.num (JsonNum.finite q) => some (jsRound q)
  | PVal.num JsonNum.nonFinite => none
  | PVal.str s => parseIntJs s

/-- `ensureAverages`: retain entries whose value is a finite number or a
string. -/
def ensureAverages : Option (List (String × PVal)) → List (String × AVal)
  | none => []
  | some value =>
      value.filterMap fun kv =>
        match kv.2 with
        | PVal.num (JsonNum.finite q) => some (kv.1, AVal.num q)
        | PVal.str s => some (kv.1, AVal.str s)
        | _ => none

/-- The record the poll handler acts on: the lot-filtered match when a lot
is configured, else the first entry. -/
def selectRecord (expectedLot : String) (entries : List ProductDataEntry)
    (e0 : ProductDataEntry) : ProductDataEntry :=
  let m :=
    if expectedLot.length > 0 then
      entries.find? fun entry => sanitizeLot entry.lot == expectedLot
    else none
  m.getD e0

/-- The `RunResult` built by the realtime finish branch. -/
def buildFinishResult (expectedLot : String) (record : ProductDataEntry) :
    RealtimeResult :=
  let fallbackLot := if expectedLot.toUpper = "" then "-" else expectedLot.toUpper
  { lot :=
      match record.lot with
      | some l => if l.trim.length > 0 then l.trim else fallbackLot
      | none => fallbackLot,
    status := ProductDataStatus.finish,
    averages := ensureAverages record.averages,
    operationHour := parseOperationHour record.operationHour,
    goodProduct := parseCount record.goodProduct,
    defectProduct := parseCount record.defectProduct,
    conclusion :=
      match record.conclusion with
      | some c =>
          if c.trim.length > 0 then c.trim
          else "Simulation finished. No conclusion provided."
      | none => "Simulation finished. No conclusion provided.",
    updatedAt := record.updatedAt }

/-- The body of `pollRealtime` after a successful fetch; the boolean
records whether `setRealtimeResult` was called (a result emission). -/
def pollBodyCore (s : EngineState) (entries : List ProductDataEntry) :
    EngineState × Bool :=
  match entries with
  | [] => ({ s with activeMachineId := none, stepProgress := 0 }, false)
  | e0 :: _ =>
      let expectedLot :=
        sanitizeLot (s.lastConfiguration.bind fun c => c.general.lot)
      let record := selectRecord expectedLot entries e0
      if record.status = some "finish" then
        let result := buildFinishResult expectedLot record
        ({ clearTimers s with
            realtimeResult := some result,
            startTime := none,
            activeMachineId := none,
            stepProgress := 0,
            elapsedSeconds := 0,
            isSimulationMode := false }, true)
      else
        let activeId :=
          match record.activeMachineId with
          | some a => if a.trim.length > 0 then some a.trim else none
          | none => none
        ({ s with activeMachineId := activeId,
                  stepProgress := if activeId.isSome then 1 else 0 }, false)

/-- The outcome of one poll fetch. -/
inductive PollResponse where
  | failure
  | success (entries : List ProductDataEntry)
deriving Repr, DecidableEq

/-- One poll running to completion before the next fires (its fetch
resolves before any other event): the guard is the poll interval still
being registered, and a failed fetch is the transient no-signal tick. -/
def pollAtomic (s : EngineState) (resp : PollResponse) : EngineState × Bool :=
  if s.realtimeInterval = false then (s, false)
  else
    match resp with
    | PollResponse.failure =>
        ({ s with activeMachineId := none, stepProgress := 0 }, false)
    | PollResponse.success entries => pollBodyCore s entries

/-- Sequential (non-overlapping) poll run, counting result emissions. -/
def runPolls (s : EngineState) : List PollResponse → EngineState × ℕ
  | [] => (s, 0)
  | r :: rest =>
      let out := pollAtomic s r
      let outRest := runPolls out.1 rest
      (outRest.1, (if out.2 then 1 else 0) + outRest.2)

/-! ## Event-level semantics of the two schedulers

The JS event loop interleaves interval firings, promise resolutions and
React effect cleanup as separate turns; an `await` inside a handler is a
suspension point at which other events may run.  The states below augment
the engine state with the `cancelled` closure flag, the number of fetches
in flight, and instrumentation counters. -/

structure RtRunState where
  engine : EngineState
  cancelled : Bool
  inFlight : ℕ
  pollStarts : ℕ
  resultEmissions : ℕ
deriving Repr, DecidableEq

inductive RtEvent where
  | pollFire
  | pollResolve (resp : PollResponse)
  | cleanup
deriving Repr, DecidableEq

/-- One event of the realtime scheduler.  `pollFire` is the interval
callback up to its `await fetch`; `pollResolve` is the continuation after
the fetch resolves (the only re-check the code performs there is the
`cancelled` flag); `cleanup` is the React effect teardown. -/
def rtStep (rs : RtRunState) : RtEvent → RtRunState
  | RtEvent.pollFire =>
      if rs.engine.realtimeInterval = false then rs
      else if rs.cancelled then rs
      else { rs with inFlight := rs.inFlight + 1,
                     pollStarts := rs.pollStarts + 1 }
  | RtEvent.pollResolve resp =>
      if rs.inFlight = 0 then rs
      else
        let rs2 := { rs with inFlight := rs.inFlight - 1 }
        match resp with
        | PollResponse.failure =>
            if rs2.cancelled then rs2
            else
              { rs2 with engine :=
                  { rs2.engine with activeMachineId := none,
                                    stepProgress := 0 } }
        | PollResponse.success entries =>
            if rs2.cancelled then rs2
            else
              let out := pollBodyCore rs2.engine entries
              { rs2 with engine := out.1,
                         resultEmissions :=
                           rs2.resultEmissions + (if out.2 then 1 else 0) }
  | RtEvent.cleanup =>
      { rs with cancelled := true, engine := clearTimers rs.engine }

def runRtEvents (rs : RtRunState) (events : List RtEvent) : RtRunState :=
  events.foldl rtStep rs

structure SeqRunState where
  engine : EngineState
  cancelled : Bool
  pendingFetches : ℕ
  fetchCount : ℕ
  resultEmissions : ℕ
deriving Repr, DecidableEq

inductive SeqEvent where
  | tickFire (now : ℚ)
  | fetchResolve (fetched : Option RealtimeResult)
  | cleanup
deriving Repr, DecidableEq

/-- One event of the scripted scheduler.  `tickFire` is the tick callback
up to the `await fetch` of the finish branch: it checks `cancelled` and
the start reference, sets the terminal cells and starts the result fetch
without cancelling anything yet.  `fetchResolve` is the continuation: it
stores the result when the fetch succeeded and only then clears the
timers, the start reference and the mode (the code performs no
re-entrancy check there). -/
def seqStep (rs : SeqRunState) : SeqEvent → SeqRunState
  | SeqEvent.tickFire now =>
      if rs.engine.sequenceInterval = false then rs
      else if rs.cancelled then rs
      else
        match rs.engine.startTime with
        | none => rs
        | some t0 =>
            let elapsed := (now - t0) / 1000
            let total := totalDuration rs.engine.currentSteps
            if 0 < total ∧ total ≤ elapsed then
              let e := rs.engine
              let e2 :=
                { e with
                    activeMachineId :=
                      (e.currentSteps.getLast?).map (fun l => l.id),
                    stepProgress := 1,
                    elapsedSeconds := total }
              { rs with engine := e2,
                        pendingFetches := rs.pendingFetches + 1,
                        fetchCount := rs.fetchCount + 1 }
            else { rs with engine := applyCompute rs.engine elapsed }
  | SeqEvent.fetchResolve fetched =>
      if rs.pendingFetches = 0 then rs
      else
        let rs2 := { rs with pendingFetches := rs.pendingFetches - 1 }
        let e := rs2.engine
        let e2 :=
          match fetched with
          | some result => { e with realtimeResult := some result }
          | none => e
        let e3 :=
          { clearTimers e2 with
              startTime := none,
              isSimulationMode := false }
        { rs2 with engine := e3,
                   resultEmissions := rs2.resultEmissions +
                     (match fetched with | some _ => 1 | none => 0) }
  | SeqEvent.cleanup =>
      { rs with cancelled := true, engine := clearTimers rs.engine }

def runSeqEvents (rs : SeqRunState) (events : List SeqEvent) : SeqRunState :=
  events.foldl seqStep rs

/-- One scripted tick running to completion before the next fires: the
sync part immediately followed by its continuation. -/
def scriptedTick (s : EngineState) (now : ℚ)
    (fetched : Option RealtimeResult) : EngineState :=
  if s.sequenceInterval = false then s
  else
    match s.startTime with
    | none => s
    | some t0 =>
        let elapsed := (now - t0) / 1000
        let total := totalDuration s.currentSteps
        if 0 < total ∧ total ≤ elapsed then
          let e2 :=
            { s with
                activeMachineId :=
                  (s.currentSteps.getLast?).map (fun l => l.id),
                stepProgress := 1,
                elapsedSeconds := total }
          let e3 :=
            match fetched with
            | some result => { e2 with realtimeResult := some result }
            | none => e2
          { clearTimers e3 with startTime := none, isSimulationMode := false }
        else applyCompute s elapsed

/-! ## Live sensor stream buffer (useSensorStream) -/

structure SensorEventPayload where
  time : Option String
  machineName : Option String
  sensorName : Option String
  value : PVal
deriving Repr, DecidableEq

structure LiveSensorReading where
  id : String
  time : String
  machineName : String
  sensorName : String
  value : ℚ
deriving Repr, DecidableEq

/-- The value coercion of `handleReading`: a number passes through, and
anything else goes through `parseFloat(String(raw ?? ""))`. -/
def coerceSensorValue : PVal → JsonNum
  | PVal.num n => n
  | PVal.str s => parseFloatJs s
  | PVal.null => parseFloatJs ""

/-- JS `x || fallback` on strings. -/
def orDefault (s fallback : String) : String := if s = "" then fallback else s

/-- `Math.max(1, rawLimit ?? DEFAULT_LIMIT)` with `DEFAULT_LIMIT = 32`. -/
def sensorLimit (rawLimit : Option ℕ) : ℕ := max 1 (rawLimit.getD 32)

/-- `handleReading`: drop events without a finite coerced value; otherwise
remove any buffered reading with the same id, push the new entry to the
front, and truncate to `limit`.  `nowIso` is the ISO timestamp taken when
the event carries none. -/
def handleReading (limit : ℕ) (nowIso : String)
    (readings : List LiveSensorReading) (payload : SensorEventPayload) :
    List LiveSensorReading :=
  let machineName := orDefault (payload.machineName.getD "").trim "-"
  let sensorName := orDefault (payload.sensorName.getD "").trim "Sensor"
  match coerceSensorValue payload.value with
  | JsonNum.nonFinite => readings
  | JsonNum.finite value =>
      let timestamp :=
        match payload.time with
        | some t => if t.length > 0 then t else nowIso
        | none => nowIso
      let id := machineName ++ "::" ++ sensorName
      let entry : LiveSensorReading :=
        ⟨id, timestamp, machineName, sensorName, value⟩
      (entry :: readings.filter fun item => item.id != id).take limit

/-- Fold a stream of events (each with its wall-clock ISO time) through
the buffer, starting from the empty buffer of the hook. -/
def runSensorEvents (limit : ℕ)
    (events : List (SensorEventPayload × String)) : List LiveSensorReading :=
  events.foldl (fun buf ev => handleReading limit ev.2 buf ev.1) []

/-! ## Machine name resolution (MachineStreamTooltips) -/

/-- A scene object handle; `tag` is an opaque identity and `stepId` the
`userData.stepId` tag when present. -/
structure SceneObject where
  tag : String
  stepId : Option String
deriving Repr, DecidableEq

/-- A value stored in the `machineObjects` map: a THREE object itself, a
wrapper `{ object }`, or something exposing neither. -/
inductive SceneVal where
  | direct (o : SceneObject)
  | wrapper (o : SceneObject)
  | invalid
deriving Repr, DecidableEq

/-- The unwrap pattern used throughout: the value when it has
`updateWorldMatrix`, else its `.object` when that does. -/
def tryUnwrap : SceneVal → Option SceneObject
  | SceneVal.direct o => some o
  | SceneVal.wrapper o => some o
  | SceneVal.invalid => none

/-- `mapInfluxToModelId`: lowercase, strip a trailing `-NN`, then the
static alias table. -/
def mapInfluxToModelId (influxName : String) : List String :=
  let lower := influxName.toLower
  let baseName := stripNumSuffix lower
  if baseName = "furnace" then ["furnace", "furnace2"]
  else if baseName = "rod-feeder" then ["rod-feeder"]
  else if baseName = "ut" then ["ut"]
  else if baseName = "casting-machine" then ["casting-machine"]
  else if baseName = "ct" then ["ct-1", "ct-2", "ct-3", "ct-4"]
  else if baseName = "homogenizing" then ["homogenizing"]
  else if baseName = "charging-machine" then ["charging-machine"]
  else if baseName = "swarf" then ["swarf"]
  else if baseName = "sawing" then ["sawing"]
  else if baseName = "weightning" then ["weightning"]
  else if baseName = "weighing" then ["weightning"]
  else []

/-- `machineObjects.get` on the insertion-ordered entry list. -/
def lookupObject (objects : List (String × SceneVal)) (key : String) :
    Option SceneVal :=
  (objects.find? fun p => p.1 == key).map fun p => p.2

/-- The three probes tried for one alias candidate id: exact map key,
case-insensitive key scan, then the `userData.stepId` scan (whose stepId
must be truthy, i.e. non-empty). -/
def aliasTryOne (objects : List (String × SceneVal)) (modelId : String) :
    Option SceneObject :=
  let step1 := (lookupObject objects modelId).bind tryUnwrap
  let step2 := objects.findSome? fun p =>
    if p.1.toLower == modelId.toLower then tryUnwrap p.2 else none
  let step3 := objects.findSome? fun p =>
    match tryUnwrap p.2 with
    | some o =>
        match o.stepId with
        | some sid =>
            if sid ≠ "" ∧ sid.toLower = modelId.toLower then some o else none
        | none => none
    | none => none
  match step1 with
  | some o => some o
  | none =>
      match step2 with
      | some o => some o
      | none => step3

/-- The fuzzy containment fallback: on the first entry whose normalised id
contains or is contained in the normalised name, return its unwrapped
object — or nothing at all when it cannot be unwrapped (the code returns
null there rather than scanning on). -/
def fuzzyScan (normalized : List Char) :
    List (String × SceneVal) → Option SceneObject
  | [] => none
  | (objId, v) :: rest =>
      let normObjId := normalizeName objId
      if containsSub normObjId normalized || containsSub normalized normObjId
      then tryUnwrap v
      else fuzzyScan normalized rest

/-- `findMatchingObject`: alias-table candidates first, fuzzy containment
as the fallback. -/
def findMatchingObject (machineName : String)
    (objects : List (String × SceneVal)) : Option SceneObject :=
  let possibleIds := mapInfluxToModelId machineName
  match possibleIds.findSome? (fun modelId => aliasTryOne objects modelId) with
  | some o => some o
  | none => fuzzyScan (normalizeName machineName) objects

/-! ## Derived notions used by the specification statements -/

/-- Sum of the durations, the specification-side reading of
`totalDuration`. -/
def sumDur (steps : List SimulationStep) : ℚ :=
  (steps.map (fun s => s.duration)).sum

/-- The membership invariant: the active pointer, when set, names a step
of the currently loaded sequence. -/
def activeInSteps (s : EngineState) : Prop :=
  ∀ id, s.activeMachineId = some id →
    id ∈ s.currentSteps.map (fun st => st.id)

/-- A whole scripted run as a sequence of atomic ticks, each given the
clock value at which it fires and the result its finish fetch would
deliver. -/
def runScriptedTicks (s : EngineState)
    (trace : List (ℚ × Option RealtimeResult)) : EngineState :=
  trace.foldl (fun st p => scriptedTick st p.1 p.2) s

/-- The sanitised lot filter of the engine state. -/
def lotOf (s : EngineState) : String :=
  sanitizeLot (s.lastConfiguration.bind fun c => c.general.lot)

/-- The record a poll response makes the handler act on. -/
def respSelected (expectedLot : String) :
    PollResponse → Option ProductDataEntry
  | PollResponse.failure => none
  | PollResponse.success [] => none
  | PollResponse.success (e0 :: rest) =>
      some (selectRecord expectedLot (e0 :: rest) e0)

/-- Whether a poll response drives the handler into the finish branch. -/
def respFinishes (expectedLot : String) (resp : PollResponse) : Bool :=
  match respSelected expectedLot resp with
  | some record => record.status == some "finish"
  | none => false

/-- Well-formedness of the sensor readings buffer: bounded by the limit,
pairwise distinct ids, and every id the canonical encoding of its
machine/sensor pair. -/
def bufferWF (limit : ℕ) (buf : List LiveSensorReading) : Prop :=
  buf.length ≤ limit ∧ (buf.map (fun r => r.id)).Nodup ∧
    ∀ r ∈ buf, r.id = r.machineName ++ "::" ++ r.sensorName

/-- Whether a string ends in a dash followed by one or more digits. -/
def endsInDashDigits (s : String) : Bool :=
  let rev := s.data.reverse
  let ds := rev.takeWhile Char.isDigit
  match ds, rev.drop ds.length with
  | _ :: _, '-' :: _ => true
  | _, _ => false

/-- The id the registry generates from a base id and an occurrence
count. -/
def stepIdOf (baseId : String) (occurrence : ℕ) : String :=
  if occurrence = 1 then baseId
  else baseId ++ "-" ++ natToString occurrence

/-! ## Concrete fixtures used by the example-level theorems -/

/-- A first demo step of duration twelve. -/
def stepA : SimulationStep :=
  { id := "step-a", baseId := "step-a", name := "Step A", modelSrc := "a.glb",
    duration := 12, position := none, rotation := none, scale := none,
    occurrence := 1 }

/-- A second demo step of duration eight. -/
def stepB : SimulationStep :=
  { id := "step-b", baseId := "step-b", name := "Step B", modelSrc := "b.glb",
    duration := 8, position := none, rotation := none, scale := none,
    occurrence := 1 }

/-- The two-step demo sequence of total duration twenty. -/
def demoSteps : List SimulationStep := [stepA, stepB]

/-- An idle engine state carrying the demo sequence. -/
def idleState : EngineState :=
  { isSimulationMode := false, simulationVariant := SimulationVariant.sequence,
    currentSteps := demoSteps, activeMachineId := none, elapsedSeconds := 0,
    stepProgress := 0, productFlows := [], flowsLoading := false,
    selectedProductId := none, selectedProduct := none,
    lastConfiguration := none, isConfiguratorOpen := false,
    realtimeResult := none, startTime := none, sequenceInterval := false,
    realtimeInterval := false, elapsedInterval := false }

/-- A scripted run as produced by `startSimulation` plus the mode-entry
effect at time zero. -/
def runningScripted : EngineState :=
  engineEffectStart (startSimulation idleState 0) 0

/-- A realtime run as produced by `startSimulation` plus the mode-entry
effect at time zero with the realtime variant selected. -/
def runningRealtime : EngineState :=
  engineEffectStart
    (startSimulation
      { idleState with simulationVariant := SimulationVariant.realtime } 0) 0

/-- A process record whose reported machine id is not any loaded step. -/
def ghostRecord : ProductDataEntry :=
  { lot := none, status := some "process",
    activeMachineId := some "ghost-machine", averages := none,
    operationHour := PVal.null, goodProduct := PVal.null,
    defectProduct := PVal.null, conclusion := none, updatedAt := none }

/-- An in-progress record with a padded machine id. -/
def processRecord : ProductDataEntry :=
  { lot := none, status := some "process", activeMachineId := some "step-a",
    averages := none, operationHour := PVal.null, goodProduct := PVal.null,
    defectProduct := PVal.null, conclusion := none, updatedAt := none }

/-- The finish record of the realtime acceptance scenario: a numeric
string good count, a fractional defect count, operation hour one and no
conclusion. -/
def finishRecord : ProductDataEntry :=
  { lot := some "LOT1", status := some "finish", activeMachineId := none,
    averages := none, operationHour := PVal.num (JsonNum.finite 1),
    goodProduct := PVal.str "42",
    defectProduct := PVal.num (JsonNum.finite (37/10)), conclusion := none,
    updatedAt := none }

/-- A run result standing for whatever the scripted result endpoint
returns. -/
def demoResult : RealtimeResult :=
  { lot := "L", status := ProductDataStatus.finish, averages := [],
    operationHour := none, goodProduct := none, defectProduct := none,
    conclusion := "done", updatedAt := none }

/-- Instrumented scripted run state at the start of a run. -/
def seqRun0 : SeqRunState :=
  { engine := runningScripted, cancelled := false, pendingFetches := 0,
    fetchCount := 0, resultEmissions := 0 }

/-- Instrumented realtime run state at the start of a run. -/
def rtRun0 : RtRunState :=
  { engine := runningRealtime, cancelled := false, inFlight := 0,
    pollStarts := 0, resultEmissions := 0 }

/-- The overlapping-ticks schedule: the interval fires at 20.00 s and
20.25 s of elapsed time while the first finish fetch is still pending,
then both fetches resolve. -/
def overlappingTickEvents : List SeqEvent :=
  [SeqEvent.tickFire 20000, SeqEvent.tickFire 20250,
   SeqEvent.fetchResolve (some demoResult),
   SeqEvent.fetchResolve (some demoResult)]

/-- The overlapping-polls schedule: two polls start before either fetch
resolves, and both resolutions carry a finish record. -/
def overlappingPollEvents : List RtEvent :=
  [RtEvent.pollFire, RtEvent.pollFire,
   RtEvent.pollResolve (PollResponse.success [finishRecord]),
   RtEvent.pollResolve (PollResponse.success [finishRecord])]

/-- The scene-object map of the name-resolution scenario: one object
registered under the (typo) id the alias table points at. -/
def weighingObjects : List (String × SceneVal) :=
  [("weightning", SceneVal.direct ⟨"weightning-obj", none⟩)]

/-- A catalog exercising the id-collision of repeated base ids combined
with a catalog id that itself ends in a dash-digit suffix. -/
def collidingCatalog : List RawModel :=
  [⟨"a", "a.glb", none, none, none⟩, ⟨"a", "a.glb", none, none, none⟩,
   ⟨"a-2", "b.glb", none, none, none⟩]

/-- A product flow whose only entry references an unknown machine id. -/
def unknownFlow : ProductFlowDefinition :=
  { productId := "p1", productName := "P1", description := none,
    flow := [⟨"zzz", none, none⟩] }

/-- Registry lookups over the demo sequence. -/
def demoMReg : String → Option SimulationStep := machineRegistry demoSteps

/-- Base-id registry lookups over the demo sequence. -/
def demoBReg : String → List SimulationStep := baseMachineRegistry demoSteps

/-- An idle state whose selected catalog of flows holds only the
unresolvable flow, and whose loaded steps differ from the default
registry sequence. -/
def unknownFlowState : EngineState :=
  { idleState with productFlows := [unknownFlow], currentSteps := [stepA] }

/-- A catalog with a repeated base id and no dash-digit suffixes. -/
def cleanCatalog : List RawModel :=
  [⟨"a", "a.glb", none, none, none⟩, ⟨"a", "a.glb", none, none, none⟩,
   ⟨"b", "b.glb", none, none, none⟩]

/-- A registry lookup with a single exact id x. -/
def wMReg : String → Option SimulationStep :=
  fun k => if k = "x" then some stepA else none

/-- A base-registry lookup with a single base id y. -/
def wBReg : String → List SimulationStep :=
  fun k => if k = "y" then [stepB] else []

/-- The exact-id flow entry with both overrides. -/
def wEntryX : FlowMachineStepDefinition := ⟨"x", some "Renamed", some 9⟩

/-- The unresolvable flow entry. -/
def wEntryZ : FlowMachineStepDefinition := ⟨"zzz", none, none⟩

/-- The base-id flow entry. -/
def wEntryY : FlowMachineStepDefinition := ⟨"y", none, none⟩

/-- A flow exercising the exact hit, the skip and the base-id hit. -/
def wFlow : ProductFlowDefinition :=
  { productId := "p", productName := "P", description := none,
    flow := [wEntryX, wEntryZ, wEntryY] }

/-- A sensor event whose machine name needs trimming and whose id
collides with the buffered reading. -/
def sensorEventB : SensorEventPayload :=
  ⟨some "t2", some " M1 ", some "S1", PVal.num (JsonNum.finite 7)⟩

/-- A sensor event carrying a non-finite value. -/
def sensorEventBad : SensorEventPayload :=
  ⟨some "t3", some "M1", some "S2", PVal.num JsonNum.nonFinite⟩

/-- A one-reading buffer. -/
def sensorBuf1 : List LiveSensorReading :=
  [⟨"M1::S1", "t1", "M1", "S1", 5⟩]

/-- An all-empty configurator form. -/
def blankForm : SimulationConfiguratorFormValues :=
  { general := { lot := none, derivative := none, diameter := none,
                 moltenState := none, materialMix := none, series := none },
    parameters := { temperature := none, altitude := none,
                    castingSpeed := none, argonPressure := none,
                    waterPump := none } }

/-! # Theorems -/

/-- C1: failing-input evaluation.  In a single scripted run over the
two-step demo sequence (total duration twenty seconds), when the interval
fires again at elapsed 20.25 s while the finish fetch started by the tick
at elapsed 20 s is still pending, the result-fetch collaborator is invoked
twice and the run result is pushed twice — the tick handler cancels the
ticker and nulls the start reference only after the await, with no
idempotency flag guarding re-entry. -/
theorem scripted_finish_double_fetch :
    (runSeqEvents seqRun0 overlappingTickEvents).fetchCount = 2 ∧
    (runSeqEvents seqRun0 overlappingTickEvents).resultEmissions = 2 ∧
    (runSeqEvents seqRun0 overlappingTickEvents).engine.isSimulationMode
      = false := by
  with_unfolding_all decide

/-- C9: `stopSimulation` is idempotent — a second call with the same
`preserveRealtimeResult` argument returns the very same state — and the
stopped state has all timers cleared, Idle mode, cleared live cells, a
closed configurator, and the result kept exactly when preserved. -/
theorem stopSimulation_idempotent (s : EngineState) (p : Bool) :
    stopSimulation (stopSimulation s p) p = stopSimulation s p ∧
    (stopSimulation s p).isSimulationMode = false ∧
    (stopSimulation s p).activeMachineId = none ∧
    (stopSimulation s p).stepProgress = 0 ∧
    (stopSimulation s p).elapsedSeconds = 0 ∧
    (stopSimulation s p).startTime = none ∧
    (stopSimulation s p).sequenceInterval = false ∧
    (stopSimulation s p).realtimeInterval = false ∧
    (stopSimulation s p).elapsedInterval = false ∧
    (stopSimulation s p).isConfiguratorOpen = false ∧
    (stopSimulation s p).realtimeResult
      = (if p then s.realtimeResult else none) := by
  cases p <;> simp [stopSimulation, clearTimers]

set_option maxHeartbeats 2000000 in
/-- C8: resolving the external name Weighing-01 against a map holding the
key weightning succeeds through the alias table (the trailing -01 is
stripped, and the base key weighing maps to the candidate id weightning),
while the unrelated name xyz-99 resolves to nothing. -/
theorem weighing_name_resolution :
    mapInfluxToModelId "Weighing-01" = ["weightning"] ∧
    findMatchingObject "Weighing-01" weighingObjects
      = some ⟨"weightning-obj", none⟩ ∧
    findMatchingObject "xyz-99" weighingObjects = none := by
  with_unfolding_all decide

/-- C2 counterexample: in the Realtime variant, a poll whose record
reports an unknown machine id installs that id as the active pointer even
though it names no step of the loaded sequence — the reachable state
after the poll violates the membership invariant as claimed. -/
theorem realtime_active_outside_steps_cex :
    (pollAtomic runningRealtime
      (PollResponse.success [ghostRecord])).1.activeMachineId
      = some "ghost-machine" ∧
    (pollAtomic runningRealtime
      (PollResponse.success [ghostRecord])).1.currentSteps
      = runningRealtime.currentSteps ∧
    ¬ ("ghost-machine" ∈ (pollAtomic runningRealtime
      (PollResponse.success [ghostRecord])).1.currentSteps.map
        (fun st => st.id)) := by
  with_unfolding_all decide

/-- C4 counterexample: when the second poll fires while the first poll's
fetch is still in flight and both responses carry a finish record, the
run emits the result twice — the `cancelled` flag the continuation checks
is only set by the effect cleanup, which has not run yet. -/
theorem realtime_double_emission_cex :
    (runRtEvents rtRun0 overlappingPollEvents).resultEmissions = 2 ∧
    (runRtEvents rtRun0 overlappingPollEvents).engine.isSimulationMode
      = false := by
  with_unfolding_all decide

/-- C5 counterexample: a product flow referencing only unknown machine
ids resolves to the empty sequence, and `applyProductFlow` then leaves
the engine state exactly as it was — no run starts and the default
registry sequence is not loaded, contrary to the claimed fallback. -/
theorem empty_flow_no_default_fallback_cex :
    deriveStepsFromFlow demoMReg demoBReg unknownFlow = [] ∧
    applyProductFlow demoMReg demoBReg unknownFlowState "p1" blankForm 0
      = unknownFlowState ∧
    unknownFlowState.isSimulationMode = false ∧
    ¬ ((applyProductFlow demoMReg demoBReg unknownFlowState "p1" blankForm
          0).isSimulationMode = true ∧
       (applyProductFlow demoMReg demoBReg unknownFlowState "p1" blankForm
          0).currentSteps = demoSteps) := by
  with_unfolding_all decide

/-- C7 counterexample: a catalog in which the base id a repeats and
another entry is literally a-2 makes the generated step ids collide —
the second occurrence of a is also rendered a-2. -/
theorem registry_id_collision_cex :
    (buildSteps collidingCatalog).map (fun s => s.id) = ["a", "a-2", "a-2"] ∧
    ¬ ((buildSteps collidingCatalog).map (fun s => s.id)).Nodup := by
  with_unfolding_all decide

/-! ## The scripted state computation -/

theorem totalDuration_eq_sumDur (steps : List SimulationStep) :
    totalDuration steps = sumDur steps := by
  have aux : ∀ (l : List SimulationStep) (a : ℚ),
      l.foldl (fun acc item => acc + item.duration) a = a + sumDur l := by
    intro l
    induction l with
    | nil => intro a; simp [sumDur]
    | cons x xs ih =>
        intro a
        simp only [List.foldl_cons, ih, sumDur, List.map_cons, List.sum_cons]
        ring
  simpa [totalDuration] using aux steps 0

theorem jsMod_eq_of_nonneg (a b : ℚ) (ha : 0 ≤ a) (hb : 0 < b) :
    jsMod a b = a - b * (⌊a / b⌋ : ℚ) := by
  have h : 0 ≤ a / b := div_nonneg ha hb.le
  simp [jsMod, h]

theorem jsMod_nonneg (a b : ℚ) (ha : 0 ≤ a) (hb : 0 < b) :
    0 ≤ jsMod a b := by
  rw [jsMod_eq_of_nonneg a b ha hb]
  have h1 : (⌊a / b⌋ : ℚ) ≤ a / b := Int.floor_le _
  have h2 : b * (⌊a / b⌋ : ℚ) ≤ b * (a / b) :=
    mul_le_mul_of_nonneg_left h1 hb.le
  have h3 : b * (a / b) = a := by field_simp
  linarith

theorem jsMod_lt (a b : ℚ) (ha : 0 ≤ a) (hb : 0 < b) :
    jsMod a b < b := by
  rw [jsMod_eq_of_nonneg a b ha hb]
  have h1 : a / b < (⌊a / b⌋ : ℚ) + 1 := Int.lt_floor_add_one _
  have h2 : b * (a / b) < b * ((⌊a / b⌋ : ℚ) + 1) :=
    mul_lt_mul_of_pos_left h1 hb
  have h3 : b * (a / b) = a := by field_simp
  have h4 : b * ((⌊a / b⌋ : ℚ) + 1) = b * (⌊a / b⌋ : ℚ) + b := by ring
  linarith

theorem walkSteps_spec :
    ∀ (l : List SimulationStep) (cycle e acc : ℚ) (cur : SimulationStep),
      acc ≤ cycle → cycle < acc + sumDur l →
      ∃ (i : ℕ) (hi : i < l.length),
        (∀ j, j < i → acc + sumDur (l.take (j + 1)) ≤ cycle) ∧
        cycle < acc + sumDur (l.take (i + 1)) ∧
        walkSteps cycle e acc cur l =
          ⟨some ((l.get ⟨i, hi⟩).id),
           (cycle - (acc + sumDur (l.take i))) / (l.get ⟨i, hi⟩).duration,
           e⟩ := by
  intro l
  induction l with
  | nil =>
      intro cycle e acc cur h1 h2
      exfalso
      simp [sumDur] at h2
      linarith
  | cons step rest ih =>
      intro cycle e acc cur h1 h2
      by_cases hc : cycle < acc + step.duration
      · refine ⟨0, Nat.succ_pos _, ?_, ?_, ?_⟩
        · intro j hj
          exact absurd hj (Nat.not_lt_zero j)
        · simpa [sumDur] using hc
        · show walkSteps cycle e acc cur (step :: rest) = _
          simp only [walkSteps]
          rw [if_pos hc]
          simp only [ComputeOut.mk.injEq, List.get_eq_getElem,
            List.getElem_cons_zero, List.take_zero, sumDur, List.map_nil,
            List.sum_nil, true_and, and_true]
          ring_nf
      · have hc' : acc + step.duration ≤ cycle := not_lt.1 hc
        have h2' : cycle < (acc + step.duration) + sumDur rest := by
          simp only [sumDur, List.map_cons, List.sum_cons] at h2 ⊢
          linarith
        obtain ⟨i, hi, hfirst, hlt, heq⟩ :=
          ih cycle e (acc + step.duration) step hc' h2'
        refine ⟨i + 1, Nat.succ_lt_succ hi, ?_, ?_, ?_⟩
        · intro j hj
          cases j with
          | zero => simpa [sumDur] using hc'
          | succ j' =>
              have hj' := hfirst j' (Nat.lt_of_succ_lt_succ hj)
              simp only [List.take_succ_cons, sumDur, List.map_cons,
                List.sum_cons] at hj' ⊢
              linarith
        · simp only [List.take_succ_cons, sumDur, List.map_cons,
            List.sum_cons] at hlt ⊢
          linarith
        · have hstep : walkSteps cycle e acc cur (step :: rest)
              = walkSteps cycle e (acc + step.duration) step rest := by
            simp only [walkSteps]
            rw [if_neg hc]
          rw [hstep, heq]
          have hsum : sumDur (List.take (i + 1) (step :: rest))
              = step.duration + sumDur (List.take i rest) := by
            simp [sumDur]
          simp only [hsum, List.get_eq_getElem, List.getElem_cons_succ,
            ComputeOut.mk.injEq, true_and, and_true]
          ring_nf

/-- C3: with a non-empty sequence of positive total duration and
non-negative elapsed time, `computeState` activates the first step whose
cumulative duration end strictly exceeds the cycled elapsed time, with
`stepProgress` the fraction of that step already covered and
`elapsedSeconds` the raw elapsed value. -/
theorem computeState_first_exceeding (steps : List SimulationStep) (e : ℚ)
    (hne : steps ≠ []) (hpos : 0 < totalDuration steps) (he : 0 ≤ e) :
    ∃ (i : ℕ) (hi : i < steps.length),
      (∀ j, j < i →
        sumDur (steps.take (j + 1)) ≤ jsMod e (totalDuration steps)) ∧
      jsMod e (totalDuration steps) < sumDur (steps.take (i + 1)) ∧
      computeState steps e =
        ⟨some ((steps.get ⟨i, hi⟩).id),
         (jsMod e (totalDuration steps) - sumDur (steps.take i)) /
           (steps.get ⟨i, hi⟩).duration, e⟩ := by
  obtain ⟨first, rest, rfl⟩ : ∃ f r, steps = f :: r := by
    cases steps with
    | nil => exact absurd rfl hne
    | cons f r => exact ⟨f, r, rfl⟩
  have hcyc0 : 0 ≤ jsMod e (totalDuration (first :: rest)) :=
    jsMod_nonneg e _ he hpos
  have hcyclt : jsMod e (totalDuration (first :: rest))
      < totalDuration (first :: rest) := jsMod_lt e _ he hpos
  have hcyclt' : jsMod e (totalDuration (first :: rest))
      < 0 + sumDur (first :: rest) := by
    have hts := totalDuration_eq_sumDur (first :: rest)
    linarith
  obtain ⟨i, hi, h1, h2, h3⟩ :=
    walkSteps_spec (first :: rest) (jsMod e (totalDuration (first :: rest)))
      e 0 first hcyc0 hcyclt'
  have hguard : ¬ (totalDuration (first :: rest) ≤ 0
      ∨ (first :: rest) = ([] : List SimulationStep)) := by
    push_neg
    exact ⟨hpos, by simp⟩
  refine ⟨i, hi, ?_, ?_, ?_⟩
  · intro j hj
    have := h1 j hj
    linarith
  · linarith [h2]
  · have hcs : computeState (first :: rest) e
        = walkSteps (jsMod e (totalDuration (first :: rest))) e 0 first
            (first :: rest) := by
      simp only [computeState]
      rw [if_neg hguard]
    rw [hcs, h3]
    simp

/-- C3 witness: the two-step demo sequence at elapsed thirteen seconds
activates the second step at progress one eighth. -/
theorem computeState_first_exceeding_witness :
    (demoSteps ≠ [] ∧ 0 < totalDuration demoSteps ∧ (0:ℚ) ≤ 13) ∧
    (∃ (i : ℕ) (hi : i < demoSteps.length),
      (∀ j, j < i →
        sumDur (demoSteps.take (j + 1)) ≤ jsMod 13 (totalDuration demoSteps)) ∧
      jsMod 13 (totalDuration demoSteps) < sumDur (demoSteps.take (i + 1)) ∧
      computeState demoSteps 13 =
        ⟨some ((demoSteps.get ⟨i, hi⟩).id),
         (jsMod 13 (totalDuration demoSteps) - sumDur (demoSteps.take i)) /
           (demoSteps.get ⟨i, hi⟩).duration, 13⟩) ∧
    computeState demoSteps 13 = ⟨some "step-b", 1/8, 13⟩ := by
  refine ⟨⟨?_, ?_, ?_⟩, ?_, ?_⟩
  · with_unfolding_all decide
  · with_unfolding_all decide
  · norm_num
  · exact computeState_first_exceeding demoSteps 13
      (by with_unfolding_all decide) (by with_unfolding_all decide)
      (by norm_num)
  · with_unfolding_all decide

/-! ## The active-pointer membership invariant -/

theorem getLast?_mem {α : Type} :
    ∀ (l : List α) (a : α), l.getLast? = some a → a ∈ l := by
  intro l
  induction l with
  | nil => intro a h; simp at h
  | cons x xs ih =>
      intro a h
      cases xs with
      | nil => simp at h; simp [h]
      | cons y ys =>
          rw [List.getLast?_cons_cons] at h
          exact List.mem_cons_of_mem x (ih a h)

theorem walkSteps_active_mem :
    ∀ (l : List SimulationStep) (cycle e acc : ℚ) (cur : SimulationStep)
      (id : String),
      (walkSteps cycle e acc cur l).activeMachineId = some id →
      id = cur.id ∨ id ∈ l.map (fun st => st.id) := by
  intro l
  induction l with
  | nil =>
      intro cycle e acc cur id h
      simp [walkSteps] at h
      exact Or.inl h.symm
  | cons step rest ih =>
      intro cycle e acc cur id h
      simp only [walkSteps] at h
      by_cases hc : cycle < acc + step.duration
      · rw [if_pos hc] at h
        simp at h
        right
        simp [h]
      · rw [if_neg hc] at h
        rcases ih cycle e (acc + step.duration) step id h with h1 | h2
        · right
          simp [h1]
        · right
          exact List.mem_cons_of_mem _ h2

theorem computeState_active_mem (steps : List SimulationStep) (e : ℚ)
    (id : String)
    (h : (computeState steps e).activeMachineId = some id) :
    id ∈ steps.map (fun st => st.id) := by
  unfold computeState at h
  by_cases hg : totalDuration steps ≤ 0 ∨ steps = []
  · rw [if_pos hg] at h
    simp at h
  · rw [if_neg hg] at h
    cases steps with
    | nil => simp at hg
    | cons first rest =>
        rcases walkSteps_active_mem (first :: rest) _ e 0 first id h
          with h1 | h2
        · simp [h1]
        · exact h2

/-- An atomic scripted tick either leaves the state alone, applies the
periodic state computation at some elapsed value, or performs the finish
transition, whose active pointer is the id of the last loaded step. -/
theorem scriptedTick_cases (s : EngineState) (now : ℚ)
    (r : Option RealtimeResult) :
    scriptedTick s now r = s ∨
    (∃ elapsed, scriptedTick s now r = applyCompute s elapsed) ∨
    ((scriptedTick s now r).activeMachineId
        = (s.currentSteps.getLast?).map (fun l => l.id) ∧
     (scriptedTick s now r).currentSteps = s.currentSteps) := by
  unfold scriptedTick
  by_cases h1 : s.sequenceInterval = false
  · rw [if_pos h1]
    exact Or.inl rfl
  · rw [if_neg h1]
    cases hst : s.startTime with
    | none => exact Or.inl rfl
    | some t0 =>
        dsimp only
        by_cases h2 : 0 < totalDuration s.currentSteps ∧
            totalDuration s.currentSteps ≤ (now - t0) / 1000
        · rw [if_pos h2]
          right; right
          cases r <;> simp [clearTimers]
        · rw [if_neg h2]
          exact Or.inr (Or.inl ⟨(now - t0) / 1000, rfl⟩)

theorem scriptedTick_preserves_activeInSteps (s : EngineState) (now : ℚ)
    (r : Option RealtimeResult) (hs : activeInSteps s) :
    activeInSteps (scriptedTick s now r) := by
  rcases scriptedTick_cases s now r with h | ⟨el, h⟩ | ⟨ha, hc⟩
  · rw [h]
    exact hs
  · rw [h]
    intro id hid
    simp only [applyCompute] at hid ⊢
    exact computeState_active_mem _ _ _ hid
  · intro id hid
    rw [ha] at hid
    rw [hc]
    simp only [Option.map_eq_some'] at hid
    obtain ⟨last, hlast, hid2⟩ := hid
    rw [← hid2]
    exact List.mem_map_of_mem _ (getLast?_mem _ _ hlast)

/-- C2 amended: along any scripted run (any trace of atomic ticks from a
state satisfying the invariant), the active pointer, when set, names a
step of the loaded sequence; the mode-entry effect and `stopSimulation`
re-establish the invariant by clearing the pointer; and at most one step
is active at any instant since the pointer is a single optional id.  (In
the Realtime variant the pointer is copied verbatim from the polled
record and can escape the loaded sequence — see the counterexample.) -/
theorem scripted_active_membership (s : EngineState)
    (trace : List (ℚ × Option RealtimeResult)) (hs : activeInSteps s) :
    activeInSteps (runScriptedTicks s trace) ∧
    (∀ now, activeInSteps (engineEffectStart s now)) ∧
    (∀ p, activeInSteps (stopSimulation s p)) ∧
    (∀ id1 id2, (runScriptedTicks s trace).activeMachineId = some id1 →
       (runScriptedTicks s trace).activeMachineId = some id2 →
       id1 = id2) := by
  have main : ∀ (tr : List (ℚ × Option RealtimeResult)) (st : EngineState),
      activeInSteps st → activeInSteps (runScriptedTicks st tr) := by
    intro tr
    induction tr with
    | nil => intro st h; exact h
    | cons p rest ih =>
        intro st h
        exact ih _ (scriptedTick_preserves_activeInSteps st p.1 p.2 h)
  refine ⟨main trace s hs, ?_, ?_, ?_⟩
  · intro now id h
    simp [engineEffectStart] at h
  · intro p id h
    simp [stopSimulation, clearTimers] at h
  · intro id1 id2 h1 h2
    rw [h1] at h2
    exact (Option.some.injEq _ _ ▸ h2)

/-- C2 witness: a scripted run over the demo sequence started at time
zero and ticked at five seconds keeps the invariant, with step-a active
and present in the loaded sequence. -/
theorem scripted_active_membership_witness :
    activeInSteps runningScripted ∧
    activeInSteps (runScriptedTicks runningScripted [(5000, none)]) ∧
    (runScriptedTicks runningScripted [(5000, none)]).activeMachineId
      = some "step-a" ∧
    "step-a" ∈ (runScriptedTicks runningScripted
      [(5000, none)]).currentSteps.map (fun st => st.id) := by
  have h0 : activeInSteps runningScripted := by
    intro id h
    simp [runningScripted, engineEffectStart, startSimulation, idleState] at h
  refine ⟨h0,
    (scripted_active_membership runningScripted [(5000, none)] h0).1, ?_, ?_⟩
  · with_unfolding_all decide
  · with_unfolding_all decide

/-! ## The sensor stream buffer -/

theorem handleReading_nonfinite (limit : ℕ) (nowIso : String)
    (readings : List LiveSensorReading) (payload : SensorEventPayload)
    (h : coerceSensorValue payload.value = JsonNum.nonFinite) :
    handleReading limit nowIso readings payload = readings := by
  simp only [handleReading, h]

theorem handleReading_finite (limit : ℕ) (nowIso : String)
    (readings : List LiveSensorReading) (payload : SensorEventPayload)
    (q : ℚ)
    (h : coerceSensorValue payload.value = JsonNum.finite q) :
    ∃ entry : LiveSensorReading,
      entry.value = q ∧
      entry.id = entry.machineName ++ "::" ++ entry.sensorName ∧
      handleReading limit nowIso readings payload =
        (entry :: readings.filter fun item => item.id != entry.id).take
          limit := by
  refine ⟨⟨(orDefault (payload.machineName.getD "").trim "-") ++ "::" ++
      (orDefault (payload.sensorName.getD "").trim "Sensor"),
      (match payload.time with
       | some t => if t.length > 0 then t else nowIso
       | none => nowIso),
      orDefault (payload.machineName.getD "").trim "-",
      orDefault (payload.sensorName.getD "").trim "Sensor", q⟩,
    rfl, rfl, ?_⟩
  simp only [handleReading, h]

theorem handleReading_preserves_WF (limit : ℕ) (nowIso : String)
    (buf : List LiveSensorReading) (payload : SensorEventPayload)
    (h : bufferWF limit buf) :
    bufferWF limit (handleReading limit nowIso buf payload) := by
  cases hv : coerceSensorValue payload.value with
  | nonFinite =>
      rw [handleReading_nonfinite _ _ _ _ hv]
      exact h
  | finite q =>
      obtain ⟨entry, hval, hwf, heq⟩ :=
        handleReading_finite limit nowIso buf payload q hv
      rw [heq]
      obtain ⟨hlen, hnodup, hall⟩ := h
      have hfilsub : (buf.filter fun item => item.id != entry.id).Sublist buf :=
        List.filter_sublist _
      refine ⟨List.length_take_le _ _, ?_, ?_⟩
      · have hfil : ((buf.filter fun item => item.id != entry.id).map
            (fun r => r.id)).Nodup :=
          List.Nodup.sublist (hfilsub.map _) hnodup
        have hnotin : entry.id ∉ (buf.filter
            fun item => item.id != entry.id).map (fun r => r.id) := by
          intro hmem
          simp only [List.mem_map] at hmem
          obtain ⟨r, hr, hrid⟩ := hmem
          have hfr := List.of_mem_filter hr
          rw [hrid] at hfr
          simp at hfr
        have hcons : ((entry :: (buf.filter
            fun item => item.id != entry.id)).map (fun r => r.id)).Nodup := by
          simp only [List.map_cons, List.nodup_cons]
          exact ⟨hnotin, hfil⟩
        rw [List.map_take]
        exact List.Nodup.sublist (List.take_sublist _ _) hcons
      · intro r hr
        have hr2 : r ∈ entry :: (buf.filter fun item => item.id != entry.id) :=
          List.take_subset _ _ hr
        rcases List.mem_cons.1 hr2 with hre | hrf
        · rw [hre]
          exact hwf
        · exact hall r (List.mem_of_mem_filter hrf)

theorem runSensorEvents_WF (limit : ℕ)
    (events : List (SensorEventPayload × String)) :
    bufferWF limit (runSensorEvents limit events) := by
  have main : ∀ (evs : List (SensorEventPayload × String))
      (buf : List LiveSensorReading), bufferWF limit buf →
      bufferWF limit
        (evs.foldl (fun b ev => handleReading limit ev.2 b ev.1) buf) := by
    intro evs
    induction evs with
    | nil => intro buf h; exact h
    | cons ev rest ih =>
        intro buf h
        exact ih _ (handleReading_preserves_WF _ _ _ _ h)
  exact main events [] ⟨by simp, by simp, by simp⟩

theorem pairs_nodup_of_ids (buf : List LiveSensorReading)
    (hnodup : (buf.map (fun r => r.id)).Nodup)
    (hall : ∀ r ∈ buf, r.id = r.machineName ++ "::" ++ r.sensorName) :
    (buf.map (fun r => (r.machineName, r.sensorName))).Nodup := by
  have hmapeq : buf.map (fun r => r.id)
      = (buf.map (fun r => (r.machineName, r.sensorName))).map
          (fun p => p.1 ++ "::" ++ p.2) := by
    rw [List.map_map]
    exact List.map_congr_left hall
  rw [hmapeq] at hnodup
  exact List.Nodup.of_map _ hnodup

/-- C10: after any event sequence the buffer holds at most `limit`
entries whose machine/sensor identifier pairs are pairwise distinct; a
valid reading replaces any buffered reading with its identifier and is
placed at the front; and an event whose coerced value is not finite
leaves the buffer unchanged. -/
theorem sensor_buffer_invariants (limit : ℕ)
    (events : List (SensorEventPayload × String)) :
    (runSensorEvents limit events).length ≤ limit ∧
    ((runSensorEvents limit events).map
        (fun r => (r.machineName, r.sensorName))).Nodup ∧
    (∀ (buf : List LiveSensorReading) (payload : SensorEventPayload)
       (nowIso : String) (q : ℚ),
       coerceSensorValue payload.value = JsonNum.finite q → 1 ≤ limit →
       ∃ entry : LiveSensorReading,
         entry.value = q ∧
         handleReading limit nowIso buf payload =
           entry :: ((buf.filter fun item => item.id != entry.id).take
             (limit - 1)) ∧
         ∀ old ∈ (buf.filter fun item => item.id != entry.id).take
             (limit - 1), old.id ≠ entry.id) ∧
    (∀ (buf : List LiveSensorReading) (payload : SensorEventPayload)
       (nowIso : String),
       coerceSensorValue payload.value = JsonNum.nonFinite →
       handleReading limit nowIso buf payload = buf) := by
  obtain ⟨hlen, hnodup, hall⟩ := runSensorEvents_WF limit events
  refine ⟨hlen, pairs_nodup_of_ids _ hnodup hall, ?_, ?_⟩
  · intro buf payload nowIso q hq hlim
    obtain ⟨entry, hval, hwf, heq⟩ :=
      handleReading_finite limit nowIso buf payload q hq
    refine ⟨entry, hval, ?_, ?_⟩
    · rw [heq]
      obtain ⟨k, rfl⟩ : ∃ k, limit = k + 1 :=
        ⟨limit - 1, (Nat.succ_pred_eq_of_pos hlim).symm⟩
      simp [List.take_succ_cons]
    · intro old hold
      have hmem : old ∈ buf.filter fun item => item.id != entry.id :=
        List.take_subset _ _ hold
      have hf := List.of_mem_filter hmem
      simpa using hf
  · intro buf payload nowIso h
    exact handleReading_nonfinite _ _ _ _ h

/-- C10 witness: on a one-reading buffer, a reading for the same
machine/sensor pair (with a name needing trimming) replaces the old entry
at the front, and a non-finite reading leaves the buffer unchanged. -/
theorem sensor_buffer_invariants_witness :
    (coerceSensorValue sensorEventB.value = JsonNum.finite 7 ∧
      (1 : ℕ) ≤ 32) ∧
    (∃ entry : LiveSensorReading,
       entry.value = 7 ∧
       handleReading 32 "now" sensorBuf1 sensorEventB =
         entry :: ((sensorBuf1.filter fun item => item.id != entry.id).take
           (32 - 1)) ∧
       ∀ old ∈ (sensorBuf1.filter fun item => item.id != entry.id).take
           (32 - 1), old.id ≠ entry.id) ∧
    coerceSensorValue sensorEventBad.value = JsonNum.nonFinite ∧
    handleReading 32 "now" sensorBuf1 sensorEventBad = sensorBuf1 := by
  refine ⟨⟨?_, ?_⟩, ?_, ?_, ?_⟩
  · with_unfolding_all decide
  · decide
  · exact (sensor_buffer_invariants 32 []).2.2.1 sensorBuf1 sensorEventB
      "now" 7 (by with_unfolding_all decide) (by decide)
  · with_unfolding_all decide
  · exact (sensor_buffer_invariants 32 []).2.2.2 sensorBuf1 sensorEventBad
      "now" (by with_unfolding_all decide)

/-! ## Flow resolution -/

/-- C6: resolving a flow entry tries the exact step id first, then the
first occurrence registered under the base machine id, and otherwise the
entry is skipped (with a warning) so the derived sequence simply omits
it; a resolved entry contributes a clone of the registry step carrying
the name/duration overrides while every identity field of the registry
step is preserved, the registry itself never being modified. -/
theorem flow_entry_resolution (mReg : String → Option SimulationStep)
    (bReg : String → List SimulationStep) (fd : ProductFlowDefinition)
    (pre post : List FlowMachineStepDefinition)
    (e : FlowMachineStepDefinition)
    (hflow : fd.flow = pre ++ e :: post) :
    (deriveStepsFromFlow mReg bReg fd =
      deriveStepsFromFlow mReg bReg { fd with flow := pre } ++
      (match resolveMachineStep mReg bReg e.machineId with
       | none => []
       | some base => [cloneStep base (some (e.name.getD base.name))
           (some (e.duration.getD base.duration))]) ++
      deriveStepsFromFlow mReg bReg { fd with flow := post }) ∧
    (∀ d, mReg e.machineId = some d →
       resolveMachineStep mReg bReg e.machineId
         = some (cloneStep d none none)) ∧
    (∀ c cs, mReg e.machineId = none → bReg e.machineId = c :: cs →
       resolveMachineStep mReg bReg e.machineId
         = some (cloneStep c none none)) ∧
    (mReg e.machineId = none → bReg e.machineId = [] →
       resolveMachineStep mReg bReg e.machineId = none) ∧
    (∀ (base : SimulationStep) (n : String) (du : ℚ),
       (cloneStep base (some n) (some du)).id = base.id ∧
       (cloneStep base (some n) (some du)).baseId = base.baseId ∧
       (cloneStep base (some n) (some du)).modelSrc = base.modelSrc ∧
       (cloneStep base (some n) (some du)).occurrence = base.occurrence ∧
       (cloneStep base (some n) (some du)).name = n ∧
       (cloneStep base (some n) (some du)).duration = du) := by
  refine ⟨?_, ?_, ?_, ?_, ?_⟩
  · unfold deriveStepsFromFlow
    simp only [hflow, List.filterMap_append, List.filterMap_cons]
    cases hres : resolveMachineStep mReg bReg e.machineId with
    | none => simp [hres]
    | some base => simp [hres]
  · intro d hd
    unfold resolveMachineStep
    rw [hd]
  · intro c cs h1 h2
    unfold resolveMachineStep
    rw [h1, h2]
  · intro h1 h2
    unfold resolveMachineStep
    rw [h1, h2]
  · intro base n du
    exact ⟨rfl, rfl, rfl, rfl, rfl, rfl⟩

/-- C6 witness: over a registry with exact id x and base id y, the flow
x, zzz, y resolves by exact hit, omission and base fallback, with the
overrides of the x entry applied to a clone. -/
theorem flow_entry_resolution_witness :
    (deriveStepsFromFlow wMReg wBReg wFlow =
      deriveStepsFromFlow wMReg wBReg { wFlow with flow := [wEntryX] } ++
      (match resolveMachineStep wMReg wBReg wEntryZ.machineId with
       | none => []
       | some base => [cloneStep base (some (wEntryZ.name.getD base.name))
           (some (wEntryZ.duration.getD base.duration))]) ++
      deriveStepsFromFlow wMReg wBReg { wFlow with flow := [wEntryY] }) ∧
    resolveMachineStep wMReg wBReg "x" = some (cloneStep stepA none none) ∧
    resolveMachineStep wMReg wBReg "y" = some (cloneStep stepB none none) ∧
    resolveMachineStep wMReg wBReg "zzz" = none ∧
    deriveStepsFromFlow wMReg wBReg wFlow =
      [cloneStep stepA (some "Renamed") (some 9),
       cloneStep stepB (some stepB.name) (some stepB.duration)] := by
  have H := flow_entry_resolution wMReg wBReg wFlow [wEntryX] [wEntryY]
    wEntryZ rfl
  have HX := flow_entry_resolution wMReg wBReg wFlow [] [wEntryZ, wEntryY]
    wEntryX rfl
  have HY := flow_entry_resolution wMReg wBReg wFlow [wEntryX, wEntryZ] []
    wEntryY rfl
  refine ⟨H.1, ?_, ?_, ?_, ?_⟩
  · exact HX.2.1 stepA (by with_unfolding_all decide)
  · exact HY.2.2.1 stepB [] (by with_unfolding_all decide)
      (by with_unfolding_all decide)
  · exact H.2.2.2.1 (by with_unfolding_all decide)
      (by with_unfolding_all decide)
  · with_unfolding_all decide

/-- C5 amended: when the selected product's flow derives to an empty
sequence, `applyProductFlow` aborts with the engine state unchanged — no
run starts and the loaded steps keep their previous value; the fallback
to the default registry sequence exists only in
`requestSimulationStart`, for the case where the flow catalog itself is
empty after loading. -/
theorem empty_flow_abort_and_catalog_fallback :
    (∀ (mReg : String → Option SimulationStep)
       (bReg : String → List SimulationStep) (s : EngineState)
       (pid : String) (form : SimulationConfiguratorFormValues) (now : ℚ)
       (fd : ProductFlowDefinition),
       s.productFlows.find? (fun item => item.productId == pid) = some fd →
       deriveStepsFromFlow mReg bReg fd = [] →
       applyProductFlow mReg bReg s pid form now = s) ∧
    (∀ (defaultSteps : List SimulationStep) (s : EngineState) (now : ℚ),
       s.isSimulationMode = false → s.flowsLoading = false →
       s.productFlows = [] →
       (requestSimulationStart defaultSteps s now).currentSteps
         = defaultSteps ∧
       (requestSimulationStart defaultSteps s now).isSimulationMode
         = true) := by
  constructor
  · intro mReg bReg s pid form now fd hfind hempty
    unfold applyProductFlow
    rw [hfind]
    dsimp only
    rw [hempty]
    simp
  · intro defaultSteps s now hmode hload hflows
    unfold requestSimulationStart
    by_cases hv : s.simulationVariant = SimulationVariant.realtime
    · simp [hmode, hv, hload, hflows, startSimulation]
    · simp [hmode, hv, hload, hflows, startSimulation]

/-- C5 amended witness: with one product whose flow is unresolvable, the
start aborts leaving the state untouched; with an empty catalog and
flows loaded, the start falls back to the default sequence and runs. -/
theorem empty_flow_abort_and_catalog_fallback_witness :
    (unknownFlowState.productFlows.find?
       (fun item => item.productId == "p1") = some unknownFlow ∧
     deriveStepsFromFlow demoMReg demoBReg unknownFlow = [] ∧
     applyProductFlow demoMReg demoBReg unknownFlowState "p1" blankForm 0
       = unknownFlowState) ∧
    (idleState.isSimulationMode = false ∧ idleState.flowsLoading = false ∧
     idleState.productFlows = [] ∧
     (requestSimulationStart demoSteps idleState 0).currentSteps
       = demoSteps ∧
     (requestSimulationStart demoSteps idleState 0).isSimulationMode
       = true) := by
  refine ⟨⟨?_, ?_, ?_⟩, ?_, ?_, ?_, ?_, ?_⟩
  · with_unfolding_all decide
  · with_unfolding_all decide
  · exact empty_flow_abort_and_catalog_fallback.1 demoMReg demoBReg
      unknownFlowState "p1" blankForm 0 unknownFlow
      (by with_unfolding_all decide) (by with_unfolding_all decide)
  · with_unfolding_all decide
  · with_unfolding_all decide
  · with_unfolding_all decide
  · exact (empty_flow_abort_and_catalog_fallback.2 demoSteps idleState 0
      (by with_unfolding_all decide) (by with_unfolding_all decide)
      (by with_unfolding_all decide)).1
  · exact (empty_flow_abort_and_catalog_fallback.2 demoSteps idleState 0
      (by with_unfolding_all decide) (by with_unfolding_all decide)
      (by with_unfolding_all decide)).2

/-! ## Realtime polling -/

theorem pollAtomic_nonfinish (s : EngineState) (resp : PollResponse)
    (hint : s.realtimeInterval = true)
    (h : respFinishes (lotOf s) resp = false) :
    (pollAtomic s resp).2 = false ∧
    (pollAtomic s resp).1.realtimeInterval = s.realtimeInterval ∧
    (pollAtomic s resp).1.sequenceInterval = s.sequenceInterval ∧
    (pollAtomic s resp).1.elapsedInterval = s.elapsedInterval ∧
    (pollAtomic s resp).1.lastConfiguration = s.lastConfiguration ∧
    (pollAtomic s resp).1.realtimeResult = s.realtimeResult ∧
    (pollAtomic s resp).1.isSimulationMode = s.isSimulationMode := by
  unfold lotOf at h
  cases resp with
  | failure => simp [pollAtomic, hint]
  | success entries =>
      cases entries with
      | nil => simp [pollAtomic, hint, pollBodyCore]
      | cons e0 rest =>
          simp only [respFinishes, respSelected] at h
          rw [beq_eq_false_iff_ne] at h
          simp only [pollAtomic, hint, pollBodyCore]
          rw [if_neg h]
          simp

theorem pollAtomic_finish (s : EngineState) (resp : PollResponse)
    (rec : ProductDataEntry) (hint : s.realtimeInterval = true)
    (hsel : respSelected (lotOf s) resp = some rec)
    (hfin : rec.status = some "finish") :
    pollAtomic s resp =
      ({ clearTimers s with
          realtimeResult := some (buildFinishResult (lotOf s) rec),
          startTime := none, activeMachineId := none, stepProgress := 0,
          elapsedSeconds := 0, isSimulationMode := false }, true) := by
  cases resp with
  | failure => simp [respSelected] at hsel
  | success entries =>
      cases entries with
      | nil => simp [respSelected] at hsel
      | cons e0 rest =>
          simp only [respSelected, Option.some.injEq] at hsel
          unfold lotOf at hsel
          simp only [pollAtomic, hint, pollBodyCore, lotOf]
          rw [hsel, if_pos hfin]
          simp

theorem runPolls_stopped (s : EngineState) (l : List PollResponse)
    (h : s.realtimeInterval = false) :
    runPolls s l = (s, 0) := by
  induction l with
  | nil => rfl
  | cons r rest ih =>
      have hp : pollAtomic s r = (s, false) := by simp [pollAtomic, h]
      simp [runPolls, hp, ih]

/-- C4 amended: provided each poll's fetch resolves before the next poll
fires (non-overlapping polls), the first poll whose selected record has
status finish emits exactly one run result, built with the documented
coercions, cancels all timers, clears the live cells and returns the
mode to Idle, and every later poll response is ignored.  (When a second
poll is already in flight at finish time, the emission can duplicate —
see the counterexample.) -/
theorem realtime_finish_terminal (s : EngineState)
    (pre post : List PollResponse) (r : PollResponse)
    (rec : ProductDataEntry)
    (hint : s.realtimeInterval = true)
    (hpre : ∀ x ∈ pre, respFinishes (lotOf s) x = false)
    (hsel : respSelected (lotOf s) r = some rec)
    (hfin : rec.status = some "finish") :
    (runPolls s (pre ++ r :: post)).2 = 1 ∧
    (runPolls s (pre ++ r :: post)).1.realtimeResult
      = some (buildFinishResult (lotOf s) rec) ∧
    (runPolls s (pre ++ r :: post)).1.realtimeInterval = false ∧
    (runPolls s (pre ++ r :: post)).1.elapsedInterval = false ∧
    (runPolls s (pre ++ r :: post)).1.sequenceInterval = false ∧
    (runPolls s (pre ++ r :: post)).1.isSimulationMode = false ∧
    (runPolls s (pre ++ r :: post)).1.activeMachineId = none ∧
    (runPolls s (pre ++ r :: post)).1.stepProgress = 0 ∧
    (runPolls s (pre ++ r :: post)).1.elapsedSeconds = 0 ∧
    (runPolls s (pre ++ r :: post)).1.startTime = none := by
  induction pre generalizing s with
  | nil =>
      have hp := pollAtomic_finish s r rec hint hsel hfin
      have hrun := runPolls_stopped
        ({ clearTimers s with
            realtimeResult := some (buildFinishResult (lotOf s) rec),
            startTime := none, activeMachineId := none, stepProgress := 0,
            elapsedSeconds := 0, isSimulationMode := false }) post
        (by simp [clearTimers])
      simp only [clearTimers] at hp hrun
      refine ⟨?_, ?_, ?_, ?_, ?_, ?_, ?_, ?_, ?_, ?_⟩ <;>
        simp [runPolls, hp, hrun, clearTimers]
  | cons x pre' ih =>
      have hx := pollAtomic_nonfinish s x hint
        (hpre x (List.mem_cons_self x pre'))
      obtain ⟨hemit, hrt, hsq, hel, hcfg, hres, hmode⟩ := hx
      have hlot : lotOf (pollAtomic s x).1 = lotOf s := by
        unfold lotOf
        rw [hcfg]
      have hint2 : (pollAtomic s x).1.realtimeInterval = true := by
        rw [hrt, hint]
      have ih' := ih (pollAtomic s x).1 hint2
        (fun y hy => by rw [hlot]; exact hpre y (List.mem_cons_of_mem _ hy))
        (by rw [hlot]; exact hsel)
      obtain ⟨k1, k2, k3, k4, k5, k6, k7, k8, k9, k10⟩ := ih'
      rw [hlot] at k2
      refine ⟨?_, ?_, ?_, ?_, ?_, ?_, ?_, ?_, ?_, ?_⟩ <;>
        simp [List.cons_append, runPolls, hemit, k1, k2, k3, k4, k5, k6,
          k7, k8, k9, k10]

/-- C4 witness: the spec scenario — two process polls, then a finish
record with a numeric-string good count, fractional defect count and
operation hour one — emits exactly one result with goodProduct 42,
defectProduct 4 and operationHour rendered 1 hour singular, and a later
finish response changes nothing. -/
theorem realtime_finish_terminal_witness :
    (runningRealtime.realtimeInterval = true ∧
     (∀ x ∈ [PollResponse.success [processRecord],
             PollResponse.success [processRecord]],
        respFinishes (lotOf runningRealtime) x = false) ∧
     respSelected (lotOf runningRealtime)
       (PollResponse.success [finishRecord]) = some finishRecord ∧
     finishRecord.status = some "finish") ∧
    (runPolls runningRealtime
      ([PollResponse.success [processRecord],
        PollResponse.success [processRecord]] ++
       PollResponse.success [finishRecord] ::
         [PollResponse.success [finishRecord]])).2 = 1 ∧
    (runPolls runningRealtime
      ([PollResponse.success [processRecord],
        PollResponse.success [processRecord]] ++
       PollResponse.success [finishRecord] ::
         [PollResponse.success [finishRecord]])).1.realtimeResult
      = some (buildFinishResult (lotOf runningRealtime) finishRecord) ∧
    (buildFinishResult (lotOf runningRealtime) finishRecord).goodProduct
      = some 42 ∧
    (buildFinishResult (lotOf runningRealtime) finishRecord).defectProduct
      = some 4 ∧
    (buildFinishResult (lotOf runningRealtime) finishRecord).operationHour
      = some "1 hour" ∧
    (buildFinishResult (lotOf runningRealtime) finishRecord).conclusion
      = "Simulation finished. No conclusion provided." ∧
    (runPolls runningRealtime
      ([PollResponse.success [processRecord],
        PollResponse.success [processRecord]] ++
       PollResponse.success [finishRecord] ::
         [PollResponse.success [finishRecord]])).1.isSimulationMode
      = false := by
  have H := realtime_finish_terminal runningRealtime
    [PollResponse.success [processRecord],
     PollResponse.success [processRecord]]
    [PollResponse.success [finishRecord]]
    (PollResponse.success [finishRecord]) finishRecord
    (by with_unfolding_all decide)
    (by with_unfolding_all decide)
    (by with_unfolding_all decide)
    (by with_unfolding_all decide)
  refine ⟨⟨?_, ?_, ?_, ?_⟩, H.1, H.2.1, ?_, ?_, ?_, ?_, H.2.2.2.2.2.1⟩
  · with_unfolding_all decide
  · with_unfolding_all decide
  · with_unfolding_all decide
  · with_unfolding_all decide
  · with_unfolding_all decide
  · with_unfolding_all decide
  · with_unfolding_all decide
  · with_unfolding_all decide

/-! ## Registry id uniqueness -/

theorem strExt (s t : String) (h : s.data = t.data) : s = t := by
  cases s
  cases t
  exact congrArg String.mk h

theorem strData_append (s t : String) : (s ++ t).data = s.data ++ t.data := by
  cases s
  cases t
  rfl

theorem digitChar_isDigit : ∀ d, d < 10 → (digitChar d).isDigit = true := by
  decide

theorem digitChar_injOn :
    ∀ a, a < 10 → ∀ b, b < 10 → digitChar a = digitChar b → a = b := by
  decide

theorem natToString_data_digits (n : ℕ) (hn : n ≠ 0) :
    ∀ c ∈ (natToString n).data, c.isDigit = true := by
  intro c hc
  unfold natToString at hc
  rw [if_neg hn] at hc
  have hc2 : c ∈ ((Nat.digits 10 n).map digitChar).reverse := hc
  rw [List.mem_reverse] at hc2
  obtain ⟨d, hd, rfl⟩ := List.mem_map.1 hc2
  exact digitChar_isDigit d (Nat.digits_lt_base (by norm_num) hd)

theorem natToString_ne_empty (n : ℕ) (hn : n ≠ 0) :
    (natToString n).data ≠ [] := by
  unfold natToString
  rw [if_neg hn]
  intro hcon
  have h2 : (Nat.digits 10 n).map digitChar = [] := by
    have h3 := congrArg List.reverse hcon
    simpa using h3
  cases hd : Nat.digits 10 n with
  | nil => exact (Nat.digits_ne_nil_iff_ne_zero.mpr hn) hd
  | cons d rest =>
      rw [hd] at h2
      simp at h2

theorem map_digitChar_inj :
    ∀ (l1 l2 : List ℕ), (∀ x ∈ l1, x < 10) → (∀ x ∈ l2, x < 10) →
      l1.map digitChar = l2.map digitChar → l1 = l2 := by
  intro l1
  induction l1 with
  | nil =>
      intro l2 _ _ h
      cases l2 with
      | nil => rfl
      | cons y ys => simp at h
  | cons x xs ih =>
      intro l2 h1 h2 h
      cases l2 with
      | nil => simp at h
      | cons y ys =>
          simp only [List.map_cons, List.cons.injEq] at h
          have hx := h1 x (List.mem_cons_self x xs)
          have hy := h2 y (List.mem_cons_self y ys)
          have hxy := digitChar_injOn x hx y hy h.1
          rw [hxy, ih ys (fun z hz => h1 z (List.mem_cons_of_mem _ hz))
            (fun z hz => h2 z (List.mem_cons_of_mem _ hz)) h.2]

theorem natToString_inj (a b : ℕ) (ha : a ≠ 0) (hb : b ≠ 0)
    (h : natToString a = natToString b) : a = b := by
  unfold natToString at h
  rw [if_neg ha, if_neg hb] at h
  have hdata : ((Nat.digits 10 a).map digitChar).reverse
      = ((Nat.digits 10 b).map digitChar).reverse := congrArg String.data h
  have hmap : (Nat.digits 10 a).map digitChar
      = (Nat.digits 10 b).map digitChar := List.reverse_injective hdata
  have hdig : Nat.digits 10 a = Nat.digits 10 b :=
    map_digitChar_inj _ _
      (fun d hd => Nat.digits_lt_base (by norm_num) hd)
      (fun d hd => Nat.digits_lt_base (by norm_num) hd) hmap
  calc a = Nat.ofDigits 10 (Nat.digits 10 a) :=
        (Nat.ofDigits_digits 10 a).symm
    _ = Nat.ofDigits 10 (Nat.digits 10 b) := by rw [hdig]
    _ = b := Nat.ofDigits_digits 10 b

theorem takeWhile_append_of_all {p : Char → Bool} :
    ∀ (xs ys : List Char), (∀ c ∈ xs, p c = true) →
      (xs ++ ys).takeWhile p = xs ++ ys.takeWhile p := by
  intro xs
  induction xs with
  | nil => intro ys _; rfl
  | cons c cs ih =>
      intro ys h
      have hc := h c (List.mem_cons_self c cs)
      simp only [List.cons_append, List.takeWhile_cons, hc]
      rw [ih ys (fun z hz => h z (List.mem_cons_of_mem _ hz))]
      simp

theorem endsInDashDigits_append (b : String) (ds : List Char)
    (hne : ds ≠ []) (hds : ∀ c ∈ ds, c.isDigit = true) :
    endsInDashDigits (b ++ "-" ++ ⟨ds⟩) = true := by
  have hdata : (b ++ "-" ++ (⟨ds⟩ : String)).data
      = b.data ++ '-' :: ds := by
    rw [strData_append, strData_append, List.append_assoc]
    rfl
  have hrev : (b.data ++ '-' :: ds).reverse
      = ds.reverse ++ '-' :: b.data.reverse := by
    simp [List.reverse_append]
  have htake : (ds.reverse ++ '-' :: b.data.reverse).takeWhile Char.isDigit
      = ds.reverse := by
    rw [takeWhile_append_of_all ds.reverse ('-' :: b.data.reverse)
      (fun c hc => hds c (List.mem_reverse.1 hc))]
    simp [List.takeWhile_cons]
  unfold endsInDashDigits
  rw [hdata]
  simp only [hrev, htake, List.drop_left]
  cases hrevne : ds.reverse with
  | nil =>
      exact absurd (by simpa using hrevne) hne
  | cons c cs => rfl

theorem digits_sep_append_inj :
    ∀ (x1 x2 r1 r2 : List Char),
      (∀ c ∈ x1, c.isDigit = true) → (∀ c ∈ x2, c.isDigit = true) →
      x1 ++ '-' :: r1 = x2 ++ '-' :: r2 → x1 = x2 ∧ r1 = r2 := by
  intro x1
  induction x1 with
  | nil =>
      intro x2 r1 r2 _ h2 h
      cases x2 with
      | nil => simpa using h
      | cons y ys =>
          exfalso
          simp only [List.nil_append, List.cons_append,
            List.cons.injEq] at h
          have hy := h2 y (List.mem_cons_self y ys)
          rw [← h.1] at hy
          simp at hy
  | cons x xs ih =>
      intro x2 r1 r2 h1 h2 h
      cases x2 with
      | nil =>
          exfalso
          simp only [List.nil_append, List.cons_append,
            List.cons.injEq] at h
          have hx := h1 x (List.mem_cons_self x xs)
          rw [h.1] at hx
          simp at hx
      | cons y ys =>
          simp only [List.cons_append, List.cons.injEq] at h
          obtain ⟨hxy, hrest⟩ := h
          obtain ⟨he, hr⟩ := ih ys r1 r2
            (fun z hz => h1 z (List.mem_cons_of_mem _ hz))
            (fun z hz => h2 z (List.mem_cons_of_mem _ hz)) hrest
          exact ⟨by rw [hxy, he], hr⟩

theorem stepIdOf_inj (b1 b2 : String) (o1 o2 : ℕ)
    (hb1 : endsInDashDigits b1 = false)
    (hb2 : endsInDashDigits b2 = false)
    (ho1 : 1 ≤ o1) (ho2 : 1 ≤ o2)
    (h : stepIdOf b1 o1 = stepIdOf b2 o2) : b1 = b2 ∧ o1 = o2 := by
  unfold stepIdOf at h
  by_cases h1 : o1 = 1 <;> by_cases h2 : o2 = 1
  · rw [if_pos h1, if_pos h2] at h
    exact ⟨h, h1.trans h2.symm⟩
  · exfalso
    rw [if_pos h1, if_neg h2] at h
    have ho2' : o2 ≠ 0 := by omega
    have hE := endsInDashDigits_append b2 (natToString o2).data
      (natToString_ne_empty o2 ho2') (natToString_data_digits o2 ho2')
    rw [show (⟨(natToString o2).data⟩ : String) = natToString o2
      from rfl] at hE
    rw [← h] at hE
    rw [hb1] at hE
    exact Bool.false_ne_true hE
  · exfalso
    rw [if_neg h1, if_pos h2] at h
    have ho1' : o1 ≠ 0 := by omega
    have hE := endsInDashDigits_append b1 (natToString o1).data
      (natToString_ne_empty o1 ho1') (natToString_data_digits o1 ho1')
    rw [show (⟨(natToString o1).data⟩ : String) = natToString o1
      from rfl] at hE
    rw [h] at hE
    rw [hb2] at hE
    exact Bool.false_ne_true hE
  · rw [if_neg h1, if_neg h2] at h
    have ho1' : o1 ≠ 0 := by omega
    have ho2' : o2 ≠ 0 := by omega
    have hdata : b1.data ++ '-' :: (natToString o1).data
        = b2.data ++ '-' :: (natToString o2).data := by
      have hd := congrArg String.data h
      rw [strData_append, strData_append, strData_append,
        strData_append] at hd
      simpa using hd
    have hrev : (natToString o1).data.reverse ++ '-' :: b1.data.reverse
        = (natToString o2).data.reverse ++ '-' :: b2.data.reverse := by
      have hr := congrArg List.reverse hdata
      simpa [List.reverse_append] using hr
    obtain ⟨hdig, hbase⟩ := digits_sep_append_inj _ _ _ _
      (fun c hc => natToString_data_digits o1 ho1' c (List.mem_reverse.1 hc))
      (fun c hc => natToString_data_digits o2 ho2' c (List.mem_reverse.1 hc))
      hrev
    have hb : b1 = b2 :=
      strExt _ _ (List.reverse_injective hbase)
    have ho : o1 = o2 :=
      natToString_inj o1 o2 ho1' ho2'
        (strExt _ _ (List.reverse_injective hdig))
    exact ⟨hb, ho⟩

theorem buildStepsGo_mem :
    ∀ (l : List RawModel) (usage : String → ℕ) (index : ℕ),
      ∀ st ∈ buildStepsGo usage index l,
        (∃ m ∈ l, st.baseId = m.id) ∧
        st.id = stepIdOf st.baseId st.occurrence ∧
        usage st.baseId < st.occurrence := by
  intro l
  induction l with
  | nil =>
      intro usage index st h
      simp [buildStepsGo] at h
  | cons m rest ih =>
      intro usage index st h
      rcases List.mem_cons.1 h with he | ht
      · subst he
        refine ⟨⟨m, List.mem_cons_self m rest, rfl⟩, rfl, ?_⟩
        exact Nat.lt_succ_self _
      · obtain ⟨⟨m2, hm2, hbase⟩, hid, husage⟩ :=
          ih (fun k => if k = m.id then usage m.id + 1 else usage k)
            (index + 1) st ht
        refine ⟨⟨m2, List.mem_cons_of_mem m hm2, hbase⟩, hid, ?_⟩
        have hmono : usage st.baseId ≤
            (fun k => if k = m.id then usage m.id + 1 else usage k)
              st.baseId := by
          by_cases hk : st.baseId = m.id
          · simp [hk]
          · simp [hk]
        exact lt_of_le_of_lt hmono husage

theorem buildStepsGo_pairs_distinct :
    ∀ (l : List RawModel) (usage : String → ℕ) (index : ℕ),
      (buildStepsGo usage index l).Pairwise
        (fun a b => ¬(a.baseId = b.baseId ∧ a.occurrence = b.occurrence)) := by
  intro l
  induction l with
  | nil => intro usage index; simp [buildStepsGo]
  | cons m rest ih =>
      intro usage index
      rw [show buildStepsGo usage index (m :: rest) = _ :: _ from rfl,
        List.pairwise_cons]
      refine ⟨?_, ih _ _⟩
      intro st hst hcontra
      obtain ⟨hbase, hocc⟩ := hcontra
      obtain ⟨_, _, husage⟩ := buildStepsGo_mem rest
        (fun k => if k = m.id then usage m.id + 1 else usage k)
        (index + 1) st hst
      rw [← hbase] at husage
      simp at husage hocc
      omega

/-- C7 amended: for a catalog none of whose entry ids ends in a dash
followed by digits, the generated step ids — the base id for a first
occurrence and base-N for the N-th — are pairwise distinct.  (For a
catalog whose ids may themselves end in -N the claim fails, see the
counterexample.) -/
theorem buildSteps_ids_nodup (catalog : List RawModel)
    (hclean : ∀ m ∈ catalog, endsInDashDigits m.id = false) :
    ((buildSteps catalog).map (fun s => s.id)).Nodup := by
  unfold buildSteps
  have hpairs := buildStepsGo_pairs_distinct catalog (fun _ => 0) 0
  have hfacts := buildStepsGo_mem catalog (fun _ => 0) 0
  have hids : (buildStepsGo (fun _ => 0) 0 catalog).Pairwise
      (fun a b => a.id ≠ b.id) := by
    refine List.Pairwise.imp_of_mem ?_ hpairs
    intro a b ha hb hne hid
    obtain ⟨⟨ma, hma, hba⟩, hida, husa⟩ := hfacts a ha
    obtain ⟨⟨mb, hmb, hbb⟩, hidb, husb⟩ := hfacts b hb
    have hca : endsInDashDigits a.baseId = false := by
      rw [hba]
      exact hclean ma hma
    have hcb : endsInDashDigits b.baseId = false := by
      rw [hbb]
      exact hclean mb hmb
    have heq : stepIdOf a.baseId a.occurrence
        = stepIdOf b.baseId b.occurrence := by
      rw [← hida, ← hidb, hid]
    obtain ⟨h1, h2⟩ := stepIdOf_inj a.baseId b.baseId a.occurrence
      b.occurrence hca hcb (by omega) (by omega) heq
    exact hne ⟨h1, h2⟩
  exact List.Pairwise.map _ (fun a b h => h) hids

/-- C7 witness: a clean catalog with a repeated base id generates the
pairwise distinct ids a, a-2, b. -/
theorem buildSteps_ids_nodup_witness :
    (∀ m ∈ cleanCatalog, endsInDashDigits m.id = false) ∧
    ((buildSteps cleanCatalog).map (fun s => s.id)).Nodup ∧
    (buildSteps cleanCatalog).map (fun s => s.id) = ["a", "a-2", "b"] := by
  refine ⟨?_, buildSteps_ids_nodup cleanCatalog ?_, ?_⟩
  · with_unfolding_all decide
  · with_unfolding_all decide
  · with_unfolding_all decide

end Minerva
